import Mathlib

/-!
Verification development for the JSON Schema compiler in `src/compiler.rs`.

The compilation pipeline (`Compiler::compile` and `Compiler::compile_one`) is
embedded shallowly: `serde_json::Value` becomes the inductive `Value`, the
schema arena (`Schemas`) becomes an explicit record threaded through the
functions, and the work queue becomes a `List String` (front = head, pushes at
the back, matching `VecDeque::push_back` / `pop_front`).

Parts of the crate that `compiler.rs` calls but whose sources are not part of
the core file (the `Root` store, the arena, the utility functions, the builtin
format/decoder/media-type tables, and the external `regex` engine) are modelled
from the specification; each such definition carries a doc comment saying so.
-/

set_option maxHeartbeats 1000000

namespace Boon

/-- serde_json's `Number`: an unsigned integer (`u64`), a negative integer
(`i64`), or a floating point number, the latter modelled as a rational. -/
inductive JNum where
  | ofNat : Nat → JNum
  | ofInt : Int → JNum
  | ofRat : Rat → JNum
deriving DecidableEq

/-- `serde_json::Value`.  Objects keep their entries as an association list
(first match wins on lookup; keys of a parsed JSON object are unique). -/
inductive Value where
  | null : Value
  | bool : Bool → Value
  | num : JNum → Value
  | str : String → Value
  | arr : List Value → Value
  | obj : List (String × Value) → Value

/-- Lookup of a member in a JSON object, mirroring `Map::get`. -/
def jget : List (String × Value) → String → Option Value
  | [], _ => none
  | (k, v) :: rest, key => if k = key then some v else jget rest key

/-- Association-list lookup used for the location map and the registries. -/
def assocFind {β : Type} : List (String × β) → String → Option β
  | [], _ => none
  | (k, v) :: rest, key => if k = key then some v else assocFind rest key

/-- Modelled from the spec: `crate::util::split` (not under `src/`) splits a
canonical location `<url>#<ptr>` into the URL and the JSON-pointer fragment. -/
def splitChars : List Char → List Char × List Char
  | [] => ([], [])
  | c :: rest =>
    if c = '#' then ([], rest)
    else
      let (u, p) := splitChars rest
      (c :: u, p)

/-- Modelled from the spec: split a location at its `#` into URL and pointer. -/
def split (loc : String) : String × String :=
  let (u, p) := splitChars loc.data
  (⟨u⟩, ⟨p⟩)

/-- Modelled from the spec: `crate::util::escape` (not under `src/`), the
RFC 6901 token escape `~` → `~0`, `/` → `~1`. -/
def escapeChars : List Char → List Char
  | [] => []
  | c :: rest =>
    if c = '~' then '~' :: '0' :: escapeChars rest
    else if c = '/' then '~' :: '1' :: escapeChars rest
    else c :: escapeChars rest

/-- Modelled from the spec: RFC 6901 escape of a property name. -/
def escape (s : String) : String := ⟨escapeChars s.data⟩

/-- Modelled from the spec: RFC 6901 unescape of one pointer token
(`~1` → `/` first, then `~0` → `~`; a single left-to-right pass). -/
def unescapeChars : List Char → List Char
  | [] => []
  | '~' :: '0' :: rest => '~' :: unescapeChars rest
  | '~' :: '1' :: rest => '/' :: unescapeChars rest
  | c :: rest => c :: unescapeChars rest

/-- Split the character list of a pointer (after the leading `/`) at every
`/` into its tokens. -/
def splitSlash : List Char → List (List Char)
  | [] => [[]]
  | c :: rest =>
    if c = '/' then [] :: splitSlash rest
    else
      match splitSlash rest with
      | t :: ts => (c :: t) :: ts
      | [] => [[c]]

/-- Numeric value of a digit string. -/
def digitsToNat (cs : List Char) : Nat :=
  cs.foldl (fun a c => a * 10 + (c.toNat - 48)) 0

/-- An RFC 6901 array-index token: nonempty, all digits, no leading zero. -/
def tokenIndex (cs : List Char) : Option Nat :=
  if cs ≠ [] ∧ cs.all Char.isDigit ∧ (cs = ['0'] ∨ cs.head? ≠ some '0') then
    some (digitsToNat cs)
  else none

/-- Walk a JSON value along a list of (still escaped) pointer tokens. -/
def ptrWalk : Value → List (List Char) → Option Value
  | v, [] => some v
  | Value.obj o, t :: rest =>
    match jget o ⟨unescapeChars t⟩ with
    | some v => ptrWalk v rest
    | none => none
  | Value.arr a, t :: rest =>
    match tokenIndex t with
    | some i =>
      match a.get? i with
      | some v => ptrWalk v rest
      | none => none
    | none => none
  | _, _ :: _ => none

/-- Modelled from the spec: `Root::lookup_ptr` (not under `src/`), the standard
RFC 6901 dereference.  A malformed pointer (nonempty and not starting with `/`)
is an error; a pointer that walks off the document is `none`. -/
def lookupPtr (doc : Value) (ptr : String) : Except Unit (Option Value) :=
  match ptr.data with
  | [] => .ok (some doc)
  | '/' :: rest => .ok (ptrWalk doc (splitSlash rest))
  | _ => .error ()

/-- The structured error kinds of `CompileError` in `src/compiler.rs`.
`Box<dyn Error>` payloads are modelled as strings. -/
inductive CompileError where
  | ParseUrlError (url : String) (src : String)
  | LoadUrlError (url : String) (src : String)
  | UnsupportedUrl (url : String)
  | InvalidMetaSchema (url : String)
  | MetaSchemaCycle (url : String)
  | NotValid (msg : String)
  | InvalidId (loc : String)
  | InvalidAnchor (loc : String)
  | DuplicateId (url : String) (id : String)
  | DuplicateAnchor (url : String) (anchor : String)
  | InvalidJsonPointer (loc : String)
  | JsonPointerNotFound (loc : String)
  | AnchorNotFound (schemaUrl : String) (anchorUrl : String)
  | UnsupprtedVocabulary (url : String) (vocabulary : String)
  | InvalidRegex (url : String) (regex : String)
  | Bug (msg : String)
deriving DecidableEq

/-- `Items` in the compiled record: a uniform schema or a positional tuple. -/
inductive Items where
  | schemaRef : Nat → Items
  | schemaRefs : List Nat → Items
deriving DecidableEq

/-- `Additional` in the compiled record: a boolean or a schema handle. -/
inductive Additional where
  | bool : Bool → Additional
  | schemaRef : Nat → Additional
deriving DecidableEq

/-- A `dependencies` entry: a list of required names or a schema handle. -/
inductive Dependency where
  | props : List String → Dependency
  | schemaRef : Nat → Dependency
deriving DecidableEq

/-- Modelled from the spec: `crate::util::Type` (not under `src/`), the seven
primitive JSON type tags. -/
inductive JType where
  | null | boolean | object | array | number | integer | string
deriving DecidableEq

/-- Modelled from the spec: `Type::from_str`; an unrecognized name is `none`. -/
def JType.fromStr (t : String) : Option JType :=
  if t = "null" then some .null
  else if t = "boolean" then some .boolean
  else if t = "object" then some .object
  else if t = "array" then some .array
  else if t = "number" then some .number
  else if t = "integer" then some .integer
  else if t = "string" then some .string
  else none

/-- The compiled schema record (`Schema`).  Compiled regexes are represented by
their source string; format / decoder / media-type function pointers by a
`(name, token)` pair where the token identifies the function. -/
structure Schema where
  draftVersion : Nat := 0
  index : Nat := 0
  location : String := ""
  resource : Nat := 0
  dynamicAnchors : List (String × Nat) := []
  boolean : Option Bool := none
  ref_ : Option Nat := none
  recursiveRef : Option Nat := none
  recursiveAnchor : Bool := false
  dynamicRef : Option Nat := none
  dynamicAnchor : Option String := none
  allOf : List Nat := []
  anyOf : List Nat := []
  oneOf : List Nat := []
  not_ : Option Nat := none
  if_ : Option Nat := none
  then_ : Option Nat := none
  else_ : Option Nat := none
  contains : Option Nat := none
  propertyNames : Option Nat := none
  properties : List (String × Nat) := []
  patternProperties : List (String × Nat) := []
  additionalProperties : Option Additional := none
  dependentSchemas : List (String × Nat) := []
  dependencies : List (String × Dependency) := []
  prefixItems : List Nat := []
  items : Option Items := none
  items2020 : Option Nat := none
  additionalItems : Option Additional := none
  unevaluatedItems : Option Nat := none
  unevaluatedProperties : Option Nat := none
  types : List JType := []
  enum_ : List Value := []
  constant : Option Value := none
  multipleOf : Option JNum := none
  maximum : Option JNum := none
  exclusiveMaximum : Option JNum := none
  minimum : Option JNum := none
  exclusiveMinimum : Option JNum := none
  maxLength : Option Nat := none
  minLength : Option Nat := none
  pattern : Option String := none
  maxItems : Option Nat := none
  minItems : Option Nat := none
  uniqueItems : Bool := false
  maxProperties : Option Nat := none
  minProperties : Option Nat := none
  required : List String := []
  dependentRequired : List (String × List String) := []
  maxContains : Option Nat := none
  minContains : Option Nat := none
  format : Option (String × Nat) := none
  contentEncoding : Option (String × Nat) := none
  contentMediaType : Option (String × Nat) := none

/-- `Schema::new(loc)`: the empty placeholder record at a location. -/
def Schema.new (loc : String) : Schema := { location := loc }

/-- Modelled from the spec: the arena (`Schemas`, §4.3) — an append-only
sequence of records (`none` = reserved placeholder) plus a map from canonical
location to handle. -/
structure Schemas where
  recs : List (Option Schema) := []
  map : List (String × Nat) := []

/-- Modelled from the spec: `Schemas::enqueue` — return the existing handle for
a known location; otherwise reserve a fresh handle, record the mapping, append
a placeholder, and push the location on the work queue. -/
def Schemas.enqueue (st : Schemas) (q : List String) (loc : String) :
    Nat × Schemas × List String :=
  match assocFind st.map loc with
  | some h => (h, st, q)
  | none =>
    (st.recs.length,
     ⟨st.recs ++ [none], st.map ++ [(loc, st.recs.length)]⟩,
     q ++ [loc])

/-- Modelled from the spec: `Schemas::insert` — write the populated record at
the handle reserved for its location (the compiler only inserts locations it
has enqueued; the fallthrough appends to stay total). -/
def Schemas.insert (st : Schemas) (loc : String) (sch : Schema) : Nat × Schemas :=
  match assocFind st.map loc with
  | some h => (h, ⟨st.recs.set h (some sch), st.map⟩)
  | none =>
    (st.recs.length,
     ⟨st.recs ++ [some sch], st.map ++ [(loc, st.recs.length)]⟩)

/-- An embedded resource of a document: its anchor map and dynamic anchors. -/
structure Resource where
  anchors : List (String × String)
  dynamicAnchors : List String

/-- Modelled from the spec: a loaded, analysed document (`Root`, §4.2, not
under `src/`).  URL joining, base-URL computation and reference resolution are
abstracted as function fields, since their implementations are outside the
core file; `doc` is the raw JSON and `draftVersion` the inferred draft. -/
structure Root where
  draftVersion : Nat
  doc : Value
  vocabsList : List String
  baseUrl : String → String
  resolveF : String → Except CompileError String
  joinF : String → String → Option String
  resourceF : String → Option Resource

/-- Modelled from the spec: `Root::has_vocab` — in pre-2019 drafts all standard
vocabularies are implicitly present; from 2019 on the document's vocabulary
set decides. -/
def Root.hasVocab (r : Root) (name : String) : Bool :=
  decide (r.draftVersion < 2019) || r.vocabsList.contains name

/-- `Root::lookup_ptr` on the owned document. -/
def Root.lookupPtrR (r : Root) (ptr : String) : Except Unit (Option Value) :=
  lookupPtr r.doc ptr

/-- Modelled from the spec: the builtin format table (`FORMATS`, §6); values
are opaque tokens identifying the validator functions. -/
def FORMATS : List (String × Nat) :=
  [("date", 100), ("date-time", 101), ("time", 102), ("duration", 103),
   ("email", 104), ("hostname", 105), ("ipv4", 106), ("ipv6", 107),
   ("uri", 108), ("uri-reference", 109), ("uri-template", 110),
   ("json-pointer", 111), ("relative-json-pointer", 112), ("regex", 113),
   ("uuid", 114)]

/-- Modelled from the spec: the builtin content-encoding table (`DECODERS`). -/
def DECODERS : List (String × Nat) := [("base64", 200)]

/-- Modelled from the spec: the builtin media-type table (`MEDIA_TYPES`). -/
def MEDIA_TYPES : List (String × Nat) := [("application/json", 300)]

/-- The `Compiler` state: pre-seeded documents (the root store restricted to
`add_resource`d documents — absent URLs fail to load, as with no registered
loader), the assertion flags, the user registries, and `regexOk`, which models
the external `regex` engine's acceptance of a pattern. -/
structure Compiler where
  roots : List (String × Root) := []
  assertFormat : Bool := false
  assertContent : Bool := false
  formats : List (String × Nat) := []
  decoders : List (String × Nat) := []
  mediaTypes : List (String × Nat) := []
  regexOk : String → Bool := fun _ => true

/-- Bind on `Except CompileError`, written out so proofs can invert it. -/
def ebind {α β : Type} (x : Except CompileError α)
    (f : α → Except CompileError β) : Except CompileError β :=
  match x with
  | .error e => .error e
  | .ok a => f a

/-- `is_ok` on `Except CompileError`. -/
def isOkE {α : Type} : Except CompileError α → Bool
  | .ok _ => true
  | .error _ => false

/-- `map` on `Except CompileError`. -/
def mapE {α β : Type} (f : α → β) : Except CompileError α → Except CompileError β
  | .ok a => .ok (f a)
  | .error e => .error e

/-- The `load_usize` helper (lines 190–202): `u64`s pass through; other
numbers must be nonnegative with zero fraction. -/
def JNum.loadUsizeNum : JNum → Option Nat
  | .ofNat n => some n
  | .ofInt z => if 0 ≤ z then some z.toNat else none
  | .ofRat ql => if 0 ≤ ql ∧ ql.den = 1 then some ql.num.toNat else none

/-- `load_usize(pname)`: a `usize` read from a member of the object. -/
def loadUsize (o : List (String × Value)) (pname : String) : Option Nat :=
  match jget o pname with
  | some (.num n) => n.loadUsizeNum
  | _ => none

/-- `load_num(pname)`: a number member, cloned. -/
def loadNum (o : List (String × Value)) (pname : String) : Option JNum :=
  match jget o pname with
  | some (.num n) => some n
  | _ => none

/-- `to_strings`: the string elements of an array value (otherwise empty). -/
def toStrings : Value → List String
  | .arr a => a.filterMap fun t => match t with | .str s => some s | _ => none
  | _ => []

/-- Enqueue a list of child locations in order, collecting their handles. -/
def enqueueList (st : Schemas) (q : List String) : List String → List Nat × Schemas × List String
  | [] => ([], st, q)
  | l :: rest =>
    let (h, st, q) := st.enqueue q l
    let (hs, st, q) := enqueueList st q rest
    (h :: hs, st, q)

/-- The `enqueue_prop` closure (lines 227–233). -/
def enqueueProp (st : Schemas) (q : List String) (o : List (String × Value))
    (loc : String) (pname : String) : Option Nat × Schemas × List String :=
  if (jget o pname).isSome then
    let (h, st, q) := st.enqueue q (loc ++ "/" ++ escape pname)
    (some h, st, q)
  else (none, st, q)

/-- The `enquue_arr` closure (lines 234–242; the source's spelling). -/
def enquueArr (st : Schemas) (q : List String) (o : List (String × Value))
    (loc : String) (pname : String) : List Nat × Schemas × List String :=
  match jget o pname with
  | some (.arr a) =>
    enqueueList st q ((List.range a.length).map
      fun i => loc ++ "/" ++ pname ++ "/" ++ toString i)
  | _ => ([], st, q)

/-- Enqueue one child per key of a sub-object (for `enqueue_map`). -/
def enqueueKeys (st : Schemas) (q : List String) (locp : String) :
    List String → List (String × Nat) × Schemas × List String
  | [] => ([], st, q)
  | k :: rest =>
    let (h, st, q) := st.enqueue q (locp ++ "/" ++ escape k)
    let (m, st, q) := enqueueKeys st q locp rest
    ((k, h) :: m, st, q)

/-- The `enqueue_map` closure (lines 243–256). -/
def enqueueMap (st : Schemas) (q : List String) (o : List (String × Value))
    (loc : String) (pname : String) : List (String × Nat) × Schemas × List String :=
  match jget o pname with
  | some (.obj m) => enqueueKeys st q (loc ++ "/" ++ pname) (m.map fun kv => kv.1)
  | _ => ([], st, q)

/-- The `enqueue_ref` closure (lines 257–273): join the reference against the
base URL, resolve it, and enqueue the resolved location. -/
def enqueueRef (st : Schemas) (q : List String) (o : List (String × Value))
    (loc : String) (root : Root) (pname : String) :
    Except CompileError (Option Nat × Schemas × List String) :=
  match jget o pname with
  | some (.str r) =>
    let ptr := (split loc).2
    match root.joinF (root.baseUrl ptr) r with
    | none => .error (.ParseUrlError r "relative url parse failure")
    | some absRef =>
      match root.resolveF absRef with
      | .error e => .error e
      | .ok resolvedRef =>
        let (h, st, q) := st.enqueue q resolvedRef
        .ok (some h, st, q)
  | _ => .ok (none, st, q)

/-- The `patternProperties` loop (lines 307–320): compile each key as a regex
(failing `InvalidRegex`) and enqueue the corresponding subschema. -/
def patternKeys (c : Compiler) (st : Schemas) (q : List String) (loc : String) :
    List String → Except CompileError (List (String × Nat) × Schemas × List String)
  | [] => .ok ([], st, q)
  | k :: rest =>
    if c.regexOk k then
      let (h, st, q) := st.enqueue q (loc ++ "/patternProperties/" ++ escape k)
      ebind (patternKeys c st q loc rest) fun r =>
        .ok ((k, h) :: r.1, r.2.1, r.2.2)
    else .error (.InvalidRegex (loc ++ "/patternProperties") k)

/-- The `dependencies` loop (lines 330–344): an array member lists required
names; anything else is a subschema. -/
def depKeys (st : Schemas) (q : List String) (loc : String) :
    List (String × Value) → List (String × Dependency) × Schemas × List String
  | [] => ([], st, q)
  | (k, v) :: rest =>
    match v with
    | .arr a =>
      let (ds, st, q) := depKeys st q loc rest
      ((k, .props (toStrings (.arr a))) :: ds, st, q)
    | _ =>
      let (h, st, q) := st.enqueue q (loc ++ "/dependencies/" ++ escape k)
      let (ds, st, q) := depKeys st q loc rest
      ((k, .schemaRef h) :: ds, st, q)

/-- The dynamic-anchor loop (lines 170–176): enqueue `<url>#<anchor-ptr>` for
each dynamic anchor of the resource (the source unwraps the anchor lookup;
root analysis guarantees it succeeds, so the default is never taken). -/
def danchorList (st : Schemas) (q : List String) (url : String)
    (anchors : List (String × String)) :
    List String → List (String × Nat) × Schemas × List String
  | [] => ([], st, q)
  | a :: rest =>
    let ptr := (assocFind anchors a).getD ""
    let (h, st, q) := st.enqueue q (url ++ "#" ++ ptr)
    let (m, st, q) := danchorList st q url anchors rest
    ((a, h) :: m, st, q)

/-- The `type` keyword (lines 348–362). -/
def lowerTypes (o : List (String × Value)) : List JType :=
  match jget o "type" with
  | some (.str t) => (JType.fromStr t).toList
  | some (.arr tt) =>
    tt.filterMap fun t => match t with | .str u => JType.fromStr u | _ => none
  | _ => []

/-- The core-vocabulary group (`$ref`, lines 276–277 — the collapse test on
the result is done by the caller). -/
def lowerCore (st : Schemas) (s : Schema) (o : List (String × Value))
    (loc : String) (root : Root) (q : List String) :
    Except CompileError (Schema × Schemas × List String) :=
  if root.hasVocab "core" then
    ebind (enqueueRef st q o loc root "$ref") fun r =>
      .ok ({ s with ref_ := r.1 }, r.2.1, r.2.2)
  else .ok (s, st, q)

/-- The twice-used `additional*` idiom (lines 294–300 and 322–328): a boolean
member stays a boolean; anything else present is enqueued as a subschema. -/
def additionalOf (st : Schemas) (q : List String) (o : List (String × Value))
    (loc : String) (pname : String) : Option Additional × Schemas × List String :=
  match jget o pname with
  | some (.bool b) => (some (Additional.bool b), st, q)
  | _ =>
    let (x, st, q) := enqueueProp st q o loc pname
    (x.map Additional.schemaRef, st, q)

/-- The pre-2020 `items` bifurcation (lines 290–304): an array `items` becomes
a positional tuple with `additionalItems` for the tail; any other present
`items` becomes a single uniform handle.  The record update performed by the
block is returned as a function so that the state effect is explicit. -/
def lowerItems (st : Schemas) (o : List (String × Value))
    (loc : String) (root : Root) (q : List String) :
    (Schema → Schema) × Schemas × List String :=
  if root.draftVersion < 2020 then
    match jget o "items" with
    | some (.arr _) =>
      let (its, st, q) := enquueArr st q o loc "items"
      let (ai, st, q) := additionalOf st q o loc "additionalItems"
      (fun s => { s with items := some (Items.schemaRefs its), additionalItems := ai }, st, q)
    | _ =>
      let (x, st, q) := enqueueProp st q o loc "items"
      (fun s => { s with items := x.map Items.schemaRef }, st, q)
  else (fun s => s, st, q)

/-- The keys of the `patternProperties` member (in object order). -/
def ppNames (o : List (String × Value)) : List String :=
  match jget o "patternProperties" with
  | some (.obj m) => m.map fun kv => kv.1
  | _ => []

/-- The `dependencies` keyword (lines 330–344). -/
def lowerDependencies (st : Schemas) (q : List String)
    (o : List (String × Value)) (loc : String) :
    List (String × Dependency) × Schemas × List String :=
  match jget o "dependencies" with
  | some (.obj d) => depKeys st q loc d
  | _ => ([], st, q)

/-- The applicator group (lines 284–345): `allOf`/`anyOf`/`oneOf`/`not`, the
pre-2020 `items` bifurcation, `properties`, `patternProperties`,
`additionalProperties` and `dependencies`. -/
def lowerApplicator (c : Compiler) (st : Schemas) (s : Schema)
    (o : List (String × Value)) (loc : String) (root : Root) (q : List String) :
    Except CompileError (Schema × Schemas × List String) :=
  if root.hasVocab "applicator" then
    let (ao, st, q) := enquueArr st q o loc "allOf"
    let (ayo, st, q) := enquueArr st q o loc "anyOf"
    let (oo, st, q) := enquueArr st q o loc "oneOf"
    let (nt, st, q) := enqueueProp st q o loc "not"
    let s := { s with allOf := ao, anyOf := ayo, oneOf := oo, not_ := nt }
    let (upd, st, q) := lowerItems st o loc root q
    let s := upd s
    let (props, st, q) := enqueueMap st q o loc "properties"
    let s := { s with properties := props }
    ebind (patternKeys c st q loc (ppNames o)) fun r =>
      let (pp, st, q) := r
      let s := { s with patternProperties := pp }
      let (ap, st, q) := additionalOf st q o loc "additionalProperties"
      let s := { s with additionalProperties := ap }
      let (deps, st, q) := lowerDependencies st q o loc
      .ok ({ s with dependencies := deps }, st, q)
  else .ok (s, st, q)

/-- The `type` and `enum` keywords (lines 348–366). -/
def lowerTypesEnum (s : Schema) (o : List (String × Value)) : Schema :=
  let s := { s with types := lowerTypes o }
  match jget o "enum" with
  | some (.arr e) => { s with enum_ := e }
  | _ => s

/-- The numeric bounds (lines 368–386), with the draft-4 behaviour: a boolean
`exclusiveMaximum`/`exclusiveMinimum` that is `true` moves the inclusive bound
into the exclusive slot and clears the inclusive one; a non-boolean member is
loaded as an independent numeric bound. -/
def lowerNumBounds (s : Schema) (o : List (String × Value)) : Schema :=
  let s := { s with multipleOf := loadNum o "multipleOf" }
  let s := { s with maximum := loadNum o "maximum" }
  let s :=
    match jget o "exclusiveMaximum" with
    | some (.bool exclusive) =>
      if exclusive then { s with maximum := none, exclusiveMaximum := s.maximum }
      else s
    | _ => { s with exclusiveMaximum := loadNum o "exclusiveMaximum" }
  let s := { s with minimum := loadNum o "minimum" }
  match jget o "exclusiveMinimum" with
  | some (.bool exclusive) =>
    if exclusive then { s with minimum := none, exclusiveMinimum := s.minimum }
    else s
  | _ => { s with exclusiveMinimum := loadNum o "exclusiveMinimum" }

/-- The string bounds and `pattern` (lines 388–393); an invalid `pattern`
regex is reported as a compiler `Bug`. -/
def lowerLengthPattern (c : Compiler) (s : Schema)
    (o : List (String × Value)) : Except CompileError Schema :=
  let s := { s with maxLength := loadUsize o "maxLength",
                    minLength := loadUsize o "minLength" }
  match jget o "pattern" with
  | some (.str p) =>
    if c.regexOk p then .ok { s with pattern := some p }
    else .error (.Bug ("invalid regex " ++ p))
  | _ => .ok s

/-- The container bounds and `required` (lines 395–406). -/
def lowerContainerBounds (s : Schema) (o : List (String × Value)) : Schema :=
  let s := { s with maxItems := loadUsize o "maxItems",
                    minItems := loadUsize o "minItems" }
  let s :=
    match jget o "uniqueItems" with
    | some (.bool unique) => { s with uniqueItems := unique }
    | _ => s
  let s := { s with maxProperties := loadUsize o "maxProperties",
                    minProperties := loadUsize o "minProperties" }
  match jget o "required" with
  | some req => { s with required := toStrings req }
  | none => s

/-- The validation group (lines 347–407): type, enum, the numeric bounds with
the draft-4 boolean `exclusiveMaximum`/`exclusiveMinimum` handling, the string
and container bounds, `pattern` (an invalid pattern is a compiler `Bug`), and
`required`. -/
def lowerValidation (c : Compiler) (root : Root) (s : Schema)
    (o : List (String × Value)) : Except CompileError Schema :=
  if root.hasVocab "validation" then
    let s := lowerTypesEnum s o
    let s := lowerNumBounds s o
    ebind (lowerLengthPattern c s o) fun s =>
    .ok (lowerContainerBounds s o)
  else .ok s

/-- The format group (lines 410–428): gated by `assert_format` or the
draft-dependent vocabulary; user registry first, builtin table second, and an
unknown name is silently dropped. -/
def lowerFormat (c : Compiler) (root : Root) (s : Schema)
    (o : List (String × Value)) : Schema :=
  if c.assertFormat ||
      root.hasVocab
        (if root.draftVersion < 2019 then "core"
         else if root.draftVersion = 2019 then "format"
         else "format-assertion") then
    match jget o "format" with
    | some (.str name) =>
      match (assocFind c.formats name).orElse (fun _ => assocFind FORMATS name) with
      | some f => { s with format := some (name, f) }
      | none => s
    | _ => s
  else s

/-- The draft-6 applicator keywords (lines 432–435): `contains` and
`propertyNames`, as a record update plus state effect. -/
def lowerContainsProps (st : Schemas) (q : List String)
    (o : List (String × Value)) (loc : String) (root : Root) :
    (Schema → Schema) × Schemas × List String :=
  if root.hasVocab "applicator" then
    let (ct, st, q) := enqueueProp st q o loc "contains"
    let (pn, st, q) := enqueueProp st q o loc "propertyNames"
    (fun s => { s with contains := ct, propertyNames := pn }, st, q)
  else (fun s => s, st, q)

/-- The draft-6 group (lines 431–442): `contains`, `propertyNames`, `const`. -/
def lowerDraft6 (root : Root) (st : Schemas) (s : Schema)
    (o : List (String × Value)) (loc : String) (q : List String) :
    Schema × Schemas × List String :=
  if 6 ≤ root.draftVersion then
    let (upd, st, q) := lowerContainsProps st q o loc root
    let s := upd s
    let s :=
      if root.hasVocab "validation" then
        match jget o "const" with
        | some constant => { s with constant := some constant }
        | none => s
      else s
    (s, st, q)
  else (s, st, q)

/-- The draft-7 conditional keywords (lines 446–451): `if` is compiled under
the applicator vocabulary, and `then`/`else` only when `if` is present. -/
def lowerIfThenElse (st : Schemas) (q : List String)
    (o : List (String × Value)) (loc : String) (root : Root) :
    (Schema → Schema) × Schemas × List String :=
  if root.hasVocab "applicator" then
    let (i, st, q) := enqueueProp st q o loc "if"
    if i.isSome then
      let (t, st, q) := enqueueProp st q o loc "then"
      let (e, st, q) := enqueueProp st q o loc "else"
      (fun s => { s with if_ := i, then_ := t, else_ := e }, st, q)
    else (fun s => { s with if_ := i }, st, q)
  else (fun s => s, st, q)

/-- The draft-7 content assertions (lines 453–473), a pure record update. -/
def lowerContent (c : Compiler) (s : Schema) (o : List (String × Value)) : Schema :=
  if c.assertContent then
    let s :=
      match jget o "contentEncoding" with
      | some (.str enc) =>
        match (assocFind c.decoders enc).orElse (fun _ => assocFind DECODERS enc) with
        | some d => { s with contentEncoding := some (enc, d) }
        | none => s
      | _ => s
    match jget o "contentMediaType" with
    | some (.str mt) =>
      match (assocFind c.mediaTypes mt).orElse (fun _ => assocFind MEDIA_TYPES mt) with
      | some m => { s with contentMediaType := some (mt, m) }
      | none => s
    | _ => s
  else s

/-- The draft-7 group (lines 445–474). -/
def lowerDraft7 (c : Compiler) (root : Root) (st : Schemas) (s : Schema)
    (o : List (String × Value)) (loc : String) (q : List String) :
    Schema × Schemas × List String :=
  if 7 ≤ root.draftVersion then
    let (upd, st, q) := lowerIfThenElse st q o loc root
    let s := upd s
    (lowerContent c s o, st, q)
  else (s, st, q)

/-- The draft-2019 validation keywords (lines 485–496): the `contains`-gated
`maxContains`/`minContains` and `dependentRequired`, a pure record update. -/
def lower2019Validation (root : Root) (s : Schema)
    (o : List (String × Value)) : Schema :=
  if root.hasVocab "validation" then
    let s :=
      if s.contains.isSome then
        { s with maxContains := loadUsize o "maxContains",
                 minContains := loadUsize o "minContains" }
      else s
    match jget o "dependentRequired" with
    | some (.obj depReq) =>
      { s with dependentRequired := depReq.map fun kv => (kv.1, toStrings kv.2) }
    | _ => s
  else s

/-- `dependentSchemas` (lines 499–501). -/
def lowerDependentSchemas (st : Schemas) (q : List String)
    (o : List (String × Value)) (loc : String) (root : Root) :
    (Schema → Schema) × Schemas × List String :=
  if root.hasVocab "applicator" then
    let (ds, st, q) := enqueueMap st q o loc "dependentSchemas"
    (fun s => { s with dependentSchemas := ds }, st, q)
  else (fun s => s, st, q)

/-- `unevaluatedItems`/`unevaluatedProperties` (lines 503–510), gated by
`applicator` in 2019 and `unevaluated` from 2020 on. -/
def lowerUnevaluated (st : Schemas) (q : List String)
    (o : List (String × Value)) (loc : String) (root : Root) :
    (Schema → Schema) × Schemas × List String :=
  if root.hasVocab (if root.draftVersion = 2019 then "applicator" else "unevaluated") then
    let (ui, st, q) := enqueueProp st q o loc "unevaluatedItems"
    let (up, st, q) := enqueueProp st q o loc "unevaluatedProperties"
    (fun s => { s with unevaluatedItems := ui, unevaluatedProperties := up }, st, q)
  else (fun s => s, st, q)

/-- The draft-2019 group (lines 477–511): `$recursiveRef`/`$recursiveAnchor`,
the `contains`-gated `maxContains`/`minContains`, `dependentRequired`,
`dependentSchemas` and the unevaluated keywords. -/
def lowerDraft2019 (st : Schemas) (s : Schema) (o : List (String × Value))
    (loc : String) (root : Root) (q : List String) :
    Except CompileError (Schema × Schemas × List String) :=
  if 2019 ≤ root.draftVersion then
    ebind
      (if root.hasVocab "core" then
        ebind (enqueueRef st q o loc root "$recursiveRef") fun r =>
          let s := { s with recursiveRef := r.1 }
          let s :=
            match jget o "$recursiveAnchor" with
            | some (.bool b) => { s with recursiveAnchor := b }
            | _ => s
          .ok (s, r.2.1, r.2.2)
      else .ok (s, st, q)) fun r =>
    let (s, st, q) := r
    let s := lower2019Validation root s o
    let (updD, st, q) := lowerDependentSchemas st q o loc root
    let s := updD s
    let (updU, st, q) := lowerUnevaluated st q o loc root
    let s := updU s
    .ok (s, st, q)
  else .ok (s, st, q)

/-- The draft-2020 applicator keywords (lines 522–525): `prefixItems` and the
2020 `items`. -/
def lowerPrefixItems (st : Schemas) (q : List String)
    (o : List (String × Value)) (loc : String) (root : Root) :
    (Schema → Schema) × Schemas × List String :=
  if root.hasVocab "applicator" then
    let (pis, st, q) := enquueArr st q o loc "prefixItems"
    let (i2, st, q) := enqueueProp st q o loc "items"
    (fun s => { s with prefixItems := pis, items2020 := i2 }, st, q)
  else (fun s => s, st, q)

/-- The draft-2020 group (lines 514–526): `$dynamicRef`/`$dynamicAnchor`,
`prefixItems` and the 2020 `items`. -/
def lowerDraft2020 (st : Schemas) (s : Schema) (o : List (String × Value))
    (loc : String) (root : Root) (q : List String) :
    Except CompileError (Schema × Schemas × List String) :=
  if 2020 ≤ root.draftVersion then
    ebind
      (if root.hasVocab "core" then
        ebind (enqueueRef st q o loc root "$dynamicRef") fun r =>
          let s := { s with dynamicRef := r.1 }
          let s :=
            match jget o "$dynamicAnchor" with
            | some (.str anchor) => { s with dynamicAnchor := some anchor }
            | _ => s
          .ok (s, r.2.1, r.2.2)
      else .ok (s, st, q)) fun r =>
    let (s, st, q) := r
    let (upd, st, q) := lowerPrefixItems st q o loc root
    .ok (upd s, st, q)
  else .ok (s, st, q)

/-- The object path of `compile_one` (lines 275–528): the keyword groups in
source order, with the pre-2019 `$ref` collapse short-circuit. -/
def lowerObj (c : Compiler) (st : Schemas) (s : Schema)
    (o : List (String × Value)) (loc : String) (root : Root) (q : List String) :
    Except CompileError (Schema × Schemas × List String) :=
  ebind (lowerCore st s o loc root q) fun r =>
  let (s, st, q) := r
  if s.ref_.isSome ∧ root.draftVersion < 2019 then .ok (s, st, q)
  else
    ebind (lowerApplicator c st s o loc root q) fun r =>
    let (s, st, q) := r
    ebind (lowerValidation c root s o) fun s =>
    let s := lowerFormat c root s o
    let (s, st, q) := lowerDraft6 root st s o loc q
    let (s, st, q) := lowerDraft7 c root st s o loc q
    ebind (lowerDraft2019 st s o loc root q) fun r =>
    let (s, st, q) := r
    lowerDraft2020 st s o loc root q

/-- `Compiler::compile_one` (lines 147–529): set identity fields, link the
enclosing resource, enqueue dynamic anchors on a 2020 resource root, then
dispatch on the value shape. -/
def compileOne (c : Compiler) (st : Schemas) (v : Value) (loc : String)
    (root : Root) (q : List String) :
    Except CompileError (Schema × Schemas × List String) :=
  let s : Schema := { Schema.new loc with draftVersion := root.draftVersion }
  let (idx, st, q) := st.enqueue q loc
  let s := { s with index := idx }
  let url := (split loc).1
  let ptr := (split loc).2
  ebind (root.resolveF (root.baseUrl ptr)) fun baseLoc =>
  let (res, st, q) := st.enqueue q baseLoc
  let s := { s with resource := res }
  let (s, st, q) :=
    if s.index = s.resource ∧ 2020 ≤ root.draftVersion then
      match root.resourceF ptr with
      | some r =>
        let (m, st, q) := danchorList st q url r.anchors r.dynamicAnchors
        ({ s with dynamicAnchors := m }, st, q)
      | none => (s, st, q)
    else (s, st, q)
  match v with
  | .bool b => .ok ({ s with boolean := some b }, st, q)
  | .obj o => lowerObj c st s o loc root q
  | _ => .ok (s, st, q)

/-- Results of the driver: success, a compile error, or fuel exhaustion (the
Rust loop has no fuel; `fuelOut` marks runs the bounded model cannot finish). -/
inductive CResult (α : Type) where
  | ok : α → CResult α
  | err : CompileError → CResult α
  | fuelOut : CResult α

/-- `map` on `CResult`. -/
def CResult.mapR {α β : Type} (f : α → β) : CResult α → CResult β
  | .ok a => .ok (f a)
  | .err e => .err e
  | .fuelOut => .fuelOut

/-- `bind` on `CResult`. -/
def CResult.bindR {α β : Type} (x : CResult α) (f : α → CResult β) : CResult β :=
  match x with
  | .ok a => f a
  | .err e => .err e
  | .fuelOut => .fuelOut

/-- `is_ok` on `CResult`. -/
def CResult.isOkR {α : Type} : CResult α → Bool
  | .ok _ => true
  | _ => false

/-- The `while let` loop of `compile` (lines 121–143): peek the front
location, load its document, resolve the pointer, lower the value, pop the
location, insert the record; the first inserted handle is remembered. -/
def compileLoop (c : Compiler) :
    Nat → Schemas → List String → Option Nat → CResult (Schemas × Nat)
  | 0, _, _, _ => .fuelOut
  | fuel + 1, target, queue, schIndex =>
    match queue with
    | [] =>
      match schIndex with
      | some i => .ok (target, i)
      | none => .err (.Bug "schema_index must exist")
    | loc :: _ =>
      let url := (split loc).1
      let ptr := (split loc).2
      match assocFind c.roots url with
      | none => .err (.UnsupportedUrl url)
      | some root =>
        match lookupPtr root.doc ptr with
        | .error _ => .err (.InvalidJsonPointer loc)
        | .ok none => .err (.JsonPointerNotFound loc)
        | .ok (some v) =>
          match compileOne c target v loc root queue with
          | .error e => .err e
          | .ok (sch, target, queue) =>
            match queue with
            | [] => .err (.Bug "queue must be non-empty")
            | popped :: rest =>
              let (index, target) := target.insert popped sch
              compileLoop c fuel target rest
                (match schIndex with | some i => some i | none => some index)

/-- Canonicalization of the starting location (lines 110–112): append `#`
when none is present. -/
def canonLoc (loc : String) : String :=
  if loc.data.contains '#' then loc else loc ++ "#"

/-- `Compiler::compile` (lines 105–145): canonicalize, enqueue the start
location, return its handle at once when already compiled, otherwise run the
work-queue loop. -/
def Compiler.compile (c : Compiler) (fuel : Nat) (target : Schemas)
    (loc : String) : CResult (Schemas × Nat) :=
  let loc := canonLoc loc
  let (index, target, queue) := target.enqueue [] loc
  if queue.isEmpty then .ok (target, index)
  else compileLoop c fuel target queue none

/-! ### Invariant infrastructure: the location map only grows, the queue is
only pushed at the back. -/

/-- Every location→handle binding of `a` is still present in `b`. -/
def SchemasExt (a b : Schemas) : Prop :=
  ∀ k h, assocFind a.map k = some h → assocFind b.map k = some h

/-- One lowering step only extends the map and appends to the queue. -/
def StepOK (a : Schemas) (q : List String) (b : Schemas) (r : List String) : Prop :=
  SchemasExt a b ∧ ∃ d, r = q ++ d

theorem SchemasExt.rfl {a : Schemas} : SchemasExt a a := fun _ _ h => h

theorem SchemasExt.comp {a b c : Schemas} (h1 : SchemasExt a b)
    (h2 : SchemasExt b c) : SchemasExt a c :=
  fun k h hk => h2 k h (h1 k h hk)

theorem stepOK_rfl {a : Schemas} {q : List String} : StepOK a q a q :=
  ⟨SchemasExt.rfl, [], by simp⟩

theorem stepOK_trans {a b c : Schemas} {q r t : List String}
    (h1 : StepOK a q b r) (h2 : StepOK b r c t) : StepOK a q c t := by
  obtain ⟨e1, d1, hd1⟩ := h1
  obtain ⟨e2, d2, hd2⟩ := h2
  exact ⟨e1.comp e2, d1 ++ d2, by simp [hd2, hd1]⟩

theorem assocFind_append_left {β : Type} {m d : List (String × β)} {k : String}
    {v : β} (h : assocFind m k = some v) : assocFind (m ++ d) k = some v := by
  induction m with
  | nil => simp [assocFind] at h
  | cons kv rest ih =>
    obtain ⟨k', v'⟩ := kv
    by_cases hk : k' = k
    · simpa [assocFind, hk] using (by simpa [assocFind, hk] using h)
    · simp only [assocFind, if_neg hk, List.cons_append] at h ⊢
      exact ih h

theorem assocFind_append_self {β : Type} {m : List (String × β)} {k : String}
    {v : β} (h : assocFind m k = none) : assocFind (m ++ [(k, v)]) k = some v := by
  induction m with
  | nil => simp [assocFind]
  | cons kv rest ih =>
    obtain ⟨k', v'⟩ := kv
    by_cases hk : k' = k
    · simp [assocFind, hk] at h
    · simp only [assocFind, if_neg hk, List.cons_append] at h ⊢
      exact ih h

theorem enqueue_stepOK {st st' : Schemas} {q q' : List String} {l : String}
    {n : Nat} (h : st.enqueue q l = (n, st', q')) : StepOK st q st' q' := by
  unfold Schemas.enqueue at h
  split at h
  · injection h with h1 h2
    injection h2 with h2 h3
    subst h2; subst h3
    exact stepOK_rfl
  · injection h with h1 h2
    injection h2 with h2 h3
    subst h2; subst h3
    exact ⟨fun k v hk => assocFind_append_left hk, [l], rfl⟩

theorem enqueue_self {st st' : Schemas} {q q' : List String} {l : String}
    {n : Nat} (h : st.enqueue q l = (n, st', q')) : assocFind st'.map l = some n := by
  unfold Schemas.enqueue at h
  split at h
  next m heq =>
    injection h with h1 h2
    injection h2 with h2 h3
    subst h1; subst h2
    exact heq
  next heq =>
    injection h with h1 h2
    injection h2 with h2 h3
    subst h1; subst h2
    exact assocFind_append_self heq

theorem enqueue_found {st : Schemas} {q : List String} {l : String} {n : Nat}
    (h : assocFind st.map l = some n) : st.enqueue q l = (n, st, q) := by
  unfold Schemas.enqueue
  rw [h]

theorem enqueueList_stepOK {ls : List String} {st st' : Schemas}
    {q q' : List String} {hs : List Nat}
    (h : enqueueList st q ls = (hs, st', q')) : StepOK st q st' q' := by
  induction ls generalizing st q hs with
  | nil =>
    unfold enqueueList at h
    injection h with h1 h2
    injection h2 with h2 h3
    subst h2; subst h3
    exact stepOK_rfl
  | cons l rest ih =>
    unfold enqueueList at h
    split at h
    next n st1 q1 heq1 =>
      split at h
      next hs1 st2 q2 heq2 =>
        injection h with h1 h2
        injection h2 with h2 h3
        subst h2; subst h3
        exact stepOK_trans (enqueue_stepOK heq1) (ih heq2)

theorem enqueueProp_stepOK {st st' : Schemas} {q q' : List String}
    {o : List (String × Value)} {loc pname : String} {x : Option Nat}
    (h : enqueueProp st q o loc pname = (x, st', q')) : StepOK st q st' q' := by
  unfold enqueueProp at h
  split at h
  · split at h
    next n st1 q1 heq =>
      injection h with h1 h2
      injection h2 with h2 h3
      subst h2; subst h3
      exact enqueue_stepOK heq
  · injection h with h1 h2
    injection h2 with h2 h3
    subst h2; subst h3
    exact stepOK_rfl

theorem enquueArr_stepOK {st st' : Schemas} {q q' : List String}
    {o : List (String × Value)} {loc pname : String} {hs : List Nat}
    (h : enquueArr st q o loc pname = (hs, st', q')) : StepOK st q st' q' := by
  unfold enquueArr at h
  split at h
  · exact enqueueList_stepOK h
  · injection h with h1 h2
    injection h2 with h2 h3
    subst h2; subst h3
    exact stepOK_rfl

theorem enqueueKeys_stepOK {ks : List String} {st st' : Schemas}
    {q q' : List String} {locp : String} {m : List (String × Nat)}
    (h : enqueueKeys st q locp ks = (m, st', q')) : StepOK st q st' q' := by
  induction ks generalizing st q m with
  | nil =>
    unfold enqueueKeys at h
    injection h with h1 h2
    injection h2 with h2 h3
    subst h2; subst h3
    exact stepOK_rfl
  | cons k rest ih =>
    unfold enqueueKeys at h
    split at h
    next n st1 q1 heq1 =>
      split at h
      next m1 st2 q2 heq2 =>
        injection h with h1 h2
        injection h2 with h2 h3
        subst h2; subst h3
        exact stepOK_trans (enqueue_stepOK heq1) (ih heq2)

theorem enqueueMap_stepOK {st st' : Schemas} {q q' : List String}
    {o : List (String × Value)} {loc pname : String} {m : List (String × Nat)}
    (h : enqueueMap st q o loc pname = (m, st', q')) : StepOK st q st' q' := by
  unfold enqueueMap at h
  split at h
  · exact enqueueKeys_stepOK h
  · injection h with h1 h2
    injection h2 with h2 h3
    subst h2; subst h3
    exact stepOK_rfl

theorem enqueueRef_stepOK {st st' : Schemas} {q q' : List String}
    {o : List (String × Value)} {loc pname : String} {root : Root} {x : Option Nat}
    (h : enqueueRef st q o loc root pname = .ok (x, st', q')) : StepOK st q st' q' := by
  unfold enqueueRef at h
  split at h
  · dsimp only at h
    split at h
    · exact absurd h (by simp)
    · split at h
      · exact absurd h (by simp)
      · injection h with h1
        injection h1 with h1 h2
        injection h2 with h2 h3
        subst h2; subst h3
        exact enqueue_stepOK rfl
  · injection h with h1
    injection h1 with h1 h2
    injection h2 with h2 h3
    subst h2; subst h3
    exact stepOK_rfl

theorem patternKeys_stepOK {ks : List String} {c : Compiler} {st st' : Schemas}
    {q q' : List String} {loc : String} {pp : List (String × Nat)}
    (h : patternKeys c st q loc ks = .ok (pp, st', q')) : StepOK st q st' q' := by
  induction ks generalizing st q pp with
  | nil =>
    unfold patternKeys at h
    injection h with h1
    injection h1 with h1 h2
    injection h2 with h2 h3
    subst h2; subst h3
    exact stepOK_rfl
  | cons k rest ih =>
    unfold patternKeys at h
    split at h
    · split at h
      next n st1 q1 heq1 =>
        unfold ebind at h
        split at h
        · exact absurd h (by simp)
        next r heq2 =>
          obtain ⟨pp1, st2, q2⟩ := r
          injection h with h1
          injection h1 with h1 h2
          injection h2 with h2 h3
          subst h2; subst h3
          exact stepOK_trans (enqueue_stepOK heq1) (ih heq2)
    · exact absurd h (by simp)

theorem depKeys_stepOK {d : List (String × Value)} {st st' : Schemas}
    {q q' : List String} {loc : String} {ds : List (String × Dependency)}
    (h : depKeys st q loc d = (ds, st', q')) : StepOK st q st' q' := by
  induction d generalizing st q ds with
  | nil =>
    unfold depKeys at h
    injection h with h1 h2
    injection h2 with h2 h3
    subst h2; subst h3
    exact stepOK_rfl
  | cons kv rest ih =>
    obtain ⟨k, v⟩ := kv
    unfold depKeys at h
    split at h
    · split at h
      next ds1 st1 q1 heq1 =>
        injection h with h1 h2
        injection h2 with h2 h3
        subst h2; subst h3
        exact ih heq1
    · split at h
      next n st1 q1 heq1 =>
        split at h
        next ds1 st2 q2 heq2 =>
          injection h with h1 h2
          injection h2 with h2 h3
          subst h2; subst h3
          exact stepOK_trans (enqueue_stepOK heq1) (ih heq2)

theorem danchorList_stepOK {das : List String} {st st' : Schemas}
    {q q' : List String} {url : String} {anchors : List (String × String)}
    {m : List (String × Nat)}
    (h : danchorList st q url anchors das = (m, st', q')) : StepOK st q st' q' := by
  induction das generalizing st q m with
  | nil =>
    unfold danchorList at h
    injection h with h1 h2
    injection h2 with h2 h3
    subst h2; subst h3
    exact stepOK_rfl
  | cons a rest ih =>
    unfold danchorList at h
    dsimp only at h
    injection h with h1 h2
    injection h2 with h2 h3
    subst h2; subst h3
    exact stepOK_trans (enqueue_stepOK rfl) (ih rfl)

theorem ebind_ok {α β : Type} {x : Except CompileError α}
    {f : α → Except CompileError β} {b : β} (h : ebind x f = .ok b) :
    ∃ a, x = .ok a ∧ f a = .ok b := by
  cases x with
  | error e => simp [ebind] at h
  | ok a => exact ⟨a, rfl, h⟩

theorem enqueue_stepOK' (st : Schemas) (q : List String) (l : String) :
    StepOK st q (st.enqueue q l).2.1 (st.enqueue q l).2.2 :=
  enqueue_stepOK rfl

theorem enqueueProp_stepOK' (st : Schemas) (q : List String)
    (o : List (String × Value)) (loc pname : String) :
    StepOK st q (enqueueProp st q o loc pname).2.1 (enqueueProp st q o loc pname).2.2 :=
  enqueueProp_stepOK rfl

theorem enquueArr_stepOK' (st : Schemas) (q : List String)
    (o : List (String × Value)) (loc pname : String) :
    StepOK st q (enquueArr st q o loc pname).2.1 (enquueArr st q o loc pname).2.2 :=
  enquueArr_stepOK rfl

theorem enqueueMap_stepOK' (st : Schemas) (q : List String)
    (o : List (String × Value)) (loc pname : String) :
    StepOK st q (enqueueMap st q o loc pname).2.1 (enqueueMap st q o loc pname).2.2 :=
  enqueueMap_stepOK rfl

theorem danchorList_stepOK' (st : Schemas) (q : List String) (url : String)
    (anchors : List (String × String)) (das : List String) :
    StepOK st q (danchorList st q url anchors das).2.1
      (danchorList st q url anchors das).2.2 :=
  danchorList_stepOK rfl

theorem additionalOf_stepOK {st st' : Schemas} {q q' : List String}
    {o : List (String × Value)} {loc pname : String} {x : Option Additional}
    (h : additionalOf st q o loc pname = (x, st', q')) : StepOK st q st' q' := by
  unfold additionalOf at h
  split at h
  · injection h with h1 h2
    injection h2 with h2 h3
    subst h2; subst h3
    exact stepOK_rfl
  · dsimp only at h
    injection h with h1 h2
    injection h2 with h2 h3
    subst h2; subst h3
    exact enqueueProp_stepOK rfl

theorem additionalOf_stepOK' (st : Schemas) (q : List String)
    (o : List (String × Value)) (loc pname : String) :
    StepOK st q (additionalOf st q o loc pname).2.1 (additionalOf st q o loc pname).2.2 :=
  additionalOf_stepOK rfl

theorem lowerItems_stepOK {st st' : Schemas} {q q' : List String}
    {upd : Schema → Schema}
    {o : List (String × Value)} {loc : String} {root : Root}
    (h : lowerItems st o loc root q = (upd, st', q')) : StepOK st q st' q' := by
  unfold lowerItems at h
  split at h
  · split at h
    · dsimp only at h
      injection h with h1 h2
      injection h2 with h2 h3
      subst h2; subst h3
      exact stepOK_trans (enquueArr_stepOK rfl) (additionalOf_stepOK rfl)
    · dsimp only at h
      injection h with h1 h2
      injection h2 with h2 h3
      subst h2; subst h3
      exact enqueueProp_stepOK rfl
  · injection h with h1 h2
    injection h2 with h2 h3
    subst h2; subst h3
    exact stepOK_rfl

theorem lowerItems_stepOK' (st : Schemas)
    (o : List (String × Value)) (loc : String) (root : Root) (q : List String) :
    StepOK st q (lowerItems st o loc root q).2.1 (lowerItems st o loc root q).2.2 :=
  lowerItems_stepOK rfl

theorem lowerDependencies_stepOK {st st' : Schemas} {q q' : List String}
    {o : List (String × Value)} {loc : String} {ds : List (String × Dependency)}
    (h : lowerDependencies st q o loc = (ds, st', q')) : StepOK st q st' q' := by
  unfold lowerDependencies at h
  split at h
  · exact depKeys_stepOK h
  · injection h with h1 h2
    injection h2 with h2 h3
    subst h2; subst h3
    exact stepOK_rfl

theorem lowerDependencies_stepOK' (st : Schemas) (q : List String)
    (o : List (String × Value)) (loc : String) :
    StepOK st q (lowerDependencies st q o loc).2.1 (lowerDependencies st q o loc).2.2 :=
  lowerDependencies_stepOK rfl

theorem lowerCore_stepOK {st st' : Schemas} {q q' : List String} {s s' : Schema}
    {o : List (String × Value)} {loc : String} {root : Root}
    (h : lowerCore st s o loc root q = .ok (s', st', q')) : StepOK st q st' q' := by
  unfold lowerCore at h
  split at h
  · obtain ⟨r, hA, hf⟩ := ebind_ok h
    obtain ⟨x, st1, q1⟩ := r
    injection hf with h1
    injection h1 with h1 h2
    injection h2 with h2 h3
    subst h2; subst h3
    exact enqueueRef_stepOK hA
  · injection h with h1
    injection h1 with h1 h2
    injection h2 with h2 h3
    subst h2; subst h3
    exact stepOK_rfl

theorem lowerApplicator_stepOK {c : Compiler} {st st' : Schemas}
    {q q' : List String} {s s' : Schema} {o : List (String × Value)}
    {loc : String} {root : Root}
    (h : lowerApplicator c st s o loc root q = .ok (s', st', q')) :
    StepOK st q st' q' := by
  unfold lowerApplicator at h
  split at h
  · dsimp only at h
    obtain ⟨r, hA, hf⟩ := ebind_ok h
    obtain ⟨pp, st1, q1⟩ := r
    dsimp only at hf
    injection hf with h1
    injection h1 with h1 h2
    injection h2 with h2 h3
    subst h2; subst h3
    refine stepOK_trans ?pre (stepOK_trans (patternKeys_stepOK hA) ?post)
    case pre =>
      refine stepOK_trans (enquueArr_stepOK' st q o loc "allOf") ?_
      refine stepOK_trans (enquueArr_stepOK' _ _ o loc "anyOf") ?_
      refine stepOK_trans (enquueArr_stepOK' _ _ o loc "oneOf") ?_
      refine stepOK_trans (enqueueProp_stepOK' _ _ o loc "not") ?_
      refine stepOK_trans (lowerItems_stepOK' _ o loc root _) ?_
      exact enqueueMap_stepOK' _ _ o loc "properties"
    case post =>
      refine stepOK_trans (additionalOf_stepOK' st1 q1 o loc "additionalProperties") ?_
      exact lowerDependencies_stepOK' _ _ o loc
  · injection h with h1
    injection h1 with h1 h2
    injection h2 with h2 h3
    subst h2; subst h3
    exact stepOK_rfl

theorem lowerContainsProps_stepOK {st st' : Schemas} {q q' : List String}
    {upd : Schema → Schema} {o : List (String × Value)} {loc : String} {root : Root}
    (h : lowerContainsProps st q o loc root = (upd, st', q')) : StepOK st q st' q' := by
  unfold lowerContainsProps at h
  split at h
  · dsimp only at h
    injection h with h1 h2
    injection h2 with h2 h3
    subst h2; subst h3
    exact stepOK_trans (enqueueProp_stepOK' st q o loc "contains")
      (enqueueProp_stepOK' _ _ o loc "propertyNames")
  · injection h with h1 h2
    injection h2 with h2 h3
    subst h2; subst h3
    exact stepOK_rfl

theorem lowerContainsProps_stepOK' (st : Schemas) (q : List String)
    (o : List (String × Value)) (loc : String) (root : Root) :
    StepOK st q (lowerContainsProps st q o loc root).2.1
      (lowerContainsProps st q o loc root).2.2 :=
  lowerContainsProps_stepOK rfl

theorem lowerIfThenElse_stepOK {st st' : Schemas} {q q' : List String}
    {upd : Schema → Schema} {o : List (String × Value)} {loc : String} {root : Root}
    (h : lowerIfThenElse st q o loc root = (upd, st', q')) : StepOK st q st' q' := by
  unfold lowerIfThenElse at h
  split at h
  · dsimp only at h
    split at h
    · injection h with h1 h2
      injection h2 with h2 h3
      subst h2; subst h3
      refine stepOK_trans (enqueueProp_stepOK' st q o loc "if") ?_
      exact stepOK_trans (enqueueProp_stepOK' _ _ o loc "then")
        (enqueueProp_stepOK' _ _ o loc "else")
    · injection h with h1 h2
      injection h2 with h2 h3
      subst h2; subst h3
      exact enqueueProp_stepOK' st q o loc "if"
  · injection h with h1 h2
    injection h2 with h2 h3
    subst h2; subst h3
    exact stepOK_rfl

theorem lowerIfThenElse_stepOK' (st : Schemas) (q : List String)
    (o : List (String × Value)) (loc : String) (root : Root) :
    StepOK st q (lowerIfThenElse st q o loc root).2.1
      (lowerIfThenElse st q o loc root).2.2 :=
  lowerIfThenElse_stepOK rfl

theorem lowerDependentSchemas_stepOK {st st' : Schemas} {q q' : List String}
    {upd : Schema → Schema} {o : List (String × Value)} {loc : String} {root : Root}
    (h : lowerDependentSchemas st q o loc root = (upd, st', q')) : StepOK st q st' q' := by
  unfold lowerDependentSchemas at h
  split at h
  · dsimp only at h
    injection h with h1 h2
    injection h2 with h2 h3
    subst h2; subst h3
    exact enqueueMap_stepOK' st q o loc "dependentSchemas"
  · injection h with h1 h2
    injection h2 with h2 h3
    subst h2; subst h3
    exact stepOK_rfl

theorem lowerDependentSchemas_stepOK' (st : Schemas) (q : List String)
    (o : List (String × Value)) (loc : String) (root : Root) :
    StepOK st q (lowerDependentSchemas st q o loc root).2.1
      (lowerDependentSchemas st q o loc root).2.2 :=
  lowerDependentSchemas_stepOK rfl

theorem lowerUnevaluated_stepOK {st st' : Schemas} {q q' : List String}
    {upd : Schema → Schema} {o : List (String × Value)} {loc : String} {root : Root}
    (h : lowerUnevaluated st q o loc root = (upd, st', q')) : StepOK st q st' q' := by
  unfold lowerUnevaluated at h
  split at h
  all_goals try split at h
  all_goals try dsimp only at h
  all_goals injection h with h1 h2
  all_goals injection h2 with h2 h3
  all_goals subst h2
  all_goals subst h3
  all_goals first
    | exact stepOK_trans (enqueueProp_stepOK' st q o loc "unevaluatedItems")
        (enqueueProp_stepOK' _ _ o loc "unevaluatedProperties")
    | exact stepOK_rfl

theorem lowerUnevaluated_stepOK' (st : Schemas) (q : List String)
    (o : List (String × Value)) (loc : String) (root : Root) :
    StepOK st q (lowerUnevaluated st q o loc root).2.1
      (lowerUnevaluated st q o loc root).2.2 :=
  lowerUnevaluated_stepOK rfl

theorem lowerPrefixItems_stepOK {st st' : Schemas} {q q' : List String}
    {upd : Schema → Schema} {o : List (String × Value)} {loc : String} {root : Root}
    (h : lowerPrefixItems st q o loc root = (upd, st', q')) : StepOK st q st' q' := by
  unfold lowerPrefixItems at h
  split at h
  · dsimp only at h
    injection h with h1 h2
    injection h2 with h2 h3
    subst h2; subst h3
    exact stepOK_trans (enquueArr_stepOK' st q o loc "prefixItems")
      (enqueueProp_stepOK' _ _ o loc "items")
  · injection h with h1 h2
    injection h2 with h2 h3
    subst h2; subst h3
    exact stepOK_rfl

theorem lowerPrefixItems_stepOK' (st : Schemas) (q : List String)
    (o : List (String × Value)) (loc : String) (root : Root) :
    StepOK st q (lowerPrefixItems st q o loc root).2.1
      (lowerPrefixItems st q o loc root).2.2 :=
  lowerPrefixItems_stepOK rfl

theorem lowerDraft6_stepOK {st st' : Schemas} {q q' : List String}
    {s s' : Schema} {o : List (String × Value)} {loc : String} {root : Root}
    (h : lowerDraft6 root st s o loc q = (s', st', q')) : StepOK st q st' q' := by
  unfold lowerDraft6 at h
  split at h
  · dsimp only at h
    injection h with h1 h2
    injection h2 with h2 h3
    subst h2; subst h3
    exact lowerContainsProps_stepOK' st q o loc root
  · injection h with h1 h2
    injection h2 with h2 h3
    subst h2; subst h3
    exact stepOK_rfl

theorem lowerDraft6_stepOK' (root : Root) (st : Schemas) (s : Schema)
    (o : List (String × Value)) (loc : String) (q : List String) :
    StepOK st q (lowerDraft6 root st s o loc q).2.1 (lowerDraft6 root st s o loc q).2.2 :=
  lowerDraft6_stepOK rfl

theorem lowerDraft7_stepOK {c : Compiler} {st st' : Schemas} {q q' : List String}
    {s s' : Schema} {o : List (String × Value)} {loc : String} {root : Root}
    (h : lowerDraft7 c root st s o loc q = (s', st', q')) : StepOK st q st' q' := by
  unfold lowerDraft7 at h
  split at h
  · dsimp only at h
    injection h with h1 h2
    injection h2 with h2 h3
    subst h2; subst h3
    exact lowerIfThenElse_stepOK' st q o loc root
  · injection h with h1 h2
    injection h2 with h2 h3
    subst h2; subst h3
    exact stepOK_rfl

theorem lowerDraft7_stepOK' (c : Compiler) (root : Root) (st : Schemas) (s : Schema)
    (o : List (String × Value)) (loc : String) (q : List String) :
    StepOK st q (lowerDraft7 c root st s o loc q).2.1 (lowerDraft7 c root st s o loc q).2.2 :=
  lowerDraft7_stepOK rfl

theorem lowerDraft2019_stepOK {st st' : Schemas} {q q' : List String}
    {s s' : Schema} {o : List (String × Value)} {loc : String} {root : Root}
    (h : lowerDraft2019 st s o loc root q = .ok (s', st', q')) :
    StepOK st q st' q' := by
  unfold lowerDraft2019 at h
  split at h
  · obtain ⟨r, hA, hf⟩ := ebind_ok h
    obtain ⟨s1, st1, q1⟩ := r
    have hstep1 : StepOK st q st1 q1 := by
      split at hA
      · obtain ⟨r2, hRef, hcont⟩ := ebind_ok hA
        obtain ⟨x2, st2, q2⟩ := r2
        dsimp only at hcont
        injection hcont with h1
        injection h1 with h1 h2
        injection h2 with h2 h3
        subst h2; subst h3
        exact enqueueRef_stepOK hRef
      · injection hA with h1
        injection h1 with h1 h2
        injection h2 with h2 h3
        subst h2; subst h3
        exact stepOK_rfl
    dsimp only at hf
    injection hf with h1
    injection h1 with h1 h2
    injection h2 with h2 h3
    subst h2; subst h3
    refine stepOK_trans hstep1 ?_
    exact stepOK_trans (lowerDependentSchemas_stepOK' st1 q1 o loc root)
      (lowerUnevaluated_stepOK' _ _ o loc root)
  · injection h with h1
    injection h1 with h1 h2
    injection h2 with h2 h3
    subst h2; subst h3
    exact stepOK_rfl

theorem lowerDraft2020_stepOK {st st' : Schemas} {q q' : List String}
    {s s' : Schema} {o : List (String × Value)} {loc : String} {root : Root}
    (h : lowerDraft2020 st s o loc root q = .ok (s', st', q')) :
    StepOK st q st' q' := by
  unfold lowerDraft2020 at h
  split at h
  · obtain ⟨r, hA, hf⟩ := ebind_ok h
    obtain ⟨s1, st1, q1⟩ := r
    have hstep1 : StepOK st q st1 q1 := by
      split at hA
      · obtain ⟨r2, hRef, hcont⟩ := ebind_ok hA
        obtain ⟨x2, st2, q2⟩ := r2
        dsimp only at hcont
        injection hcont with h1
        injection h1 with h1 h2
        injection h2 with h2 h3
        subst h2; subst h3
        exact enqueueRef_stepOK hRef
      · injection hA with h1
        injection h1 with h1 h2
        injection h2 with h2 h3
        subst h2; subst h3
        exact stepOK_rfl
    dsimp only at hf
    injection hf with h1
    injection h1 with h1 h2
    injection h2 with h2 h3
    subst h2; subst h3
    exact stepOK_trans hstep1 (lowerPrefixItems_stepOK' st1 q1 o loc root)
  · injection h with h1
    injection h1 with h1 h2
    injection h2 with h2 h3
    subst h2; subst h3
    exact stepOK_rfl

theorem lowerObj_stepOK {c : Compiler} {st st' : Schemas} {q q' : List String}
    {s s' : Schema} {o : List (String × Value)} {loc : String} {root : Root}
    (h : lowerObj c st s o loc root q = .ok (s', st', q')) : StepOK st q st' q' := by
  unfold lowerObj at h
  obtain ⟨r1, hCore, h⟩ := ebind_ok h
  obtain ⟨s1, st1, q1⟩ := r1
  dsimp only at h
  refine stepOK_trans (lowerCore_stepOK hCore) ?_
  split at h
  · injection h with h1
    injection h1 with h1 h2
    injection h2 with h2 h3
    subst h2; subst h3
    exact stepOK_rfl
  · obtain ⟨r2, hApp, h⟩ := ebind_ok h
    obtain ⟨s2, st2, q2⟩ := r2
    dsimp only at h
    obtain ⟨s3, hVal, h⟩ := ebind_ok h
    try dsimp only at h
    refine stepOK_trans (lowerApplicator_stepOK hApp) ?_
    obtain ⟨r4, h2019, h⟩ := ebind_ok h
    obtain ⟨s4, st4, q4⟩ := r4
    refine stepOK_trans (lowerDraft6_stepOK' root st2 (lowerFormat c root s3 o) o loc q2) ?_
    refine stepOK_trans (lowerDraft7_stepOK' c root
      (lowerDraft6 root st2 (lowerFormat c root s3 o) o loc q2).2.1
      (lowerDraft6 root st2 (lowerFormat c root s3 o) o loc q2).1 o loc
      (lowerDraft6 root st2 (lowerFormat c root s3 o) o loc q2).2.2) ?_
    refine stepOK_trans (lowerDraft2019_stepOK h2019) ?_
    exact lowerDraft2020_stepOK h

theorem compileOne_stepOK {c : Compiler} {st st' : Schemas} {q q' : List String}
    {v : Value} {loc : String} {root : Root} {s' : Schema}
    (h : compileOne c st v loc root q = .ok (s', st', q')) : StepOK st q st' q' := by
  unfold compileOne at h
  try dsimp only at h
  obtain ⟨baseLoc, hRes, h⟩ := ebind_ok h
  try dsimp only at h
  refine stepOK_trans (enqueue_stepOK' st q loc) ?_
  refine stepOK_trans (enqueue_stepOK' _ _ baseLoc) ?_
  split at h
  · -- boolean schema
    injection h with h1
    injection h1 with h1 h2
    injection h2 with h2 h3
    subst h2; subst h3
    split
    · split
      · exact danchorList_stepOK' _ _ _ _ _
      · exact stepOK_rfl
    · exact stepOK_rfl
  · -- object schema
    split at h
    · split at h
      · exact stepOK_trans (danchorList_stepOK' _ _ _ _ _) (lowerObj_stepOK h)
      · exact lowerObj_stepOK h
    · exact lowerObj_stepOK h
  · -- any other JSON value
    injection h with h1
    injection h1 with h1 h2
    injection h2 with h2 h3
    subst h2; subst h3
    split
    · split
      · exact danchorList_stepOK' _ _ _ _ _
      · exact stepOK_rfl
    · exact stepOK_rfl

/-! ### The driver loop: the returned handle is the start location's handle. -/

theorem insert_ext' (st : Schemas) (l : String) (sch : Schema) :
    SchemasExt st (st.insert l sch).2 := by
  unfold Schemas.insert
  split
  · exact fun k v hk => hk
  · exact fun k v hk => assocFind_append_left hk

theorem insert_fst_found {st : Schemas} {l : String} {n : Nat} (sch : Schema)
    (h : assocFind st.map l = some n) : (st.insert l sch).1 = n := by
  unfold Schemas.insert
  rw [h]

theorem compileLoop_some {c : Compiler} {i : Nat} :
    ∀ {n : Nat} {t t' : Schemas} {q : List String} {j : Nat},
      compileLoop c n t q (some i) = .ok (t', j) → j = i ∧ SchemasExt t t' := by
  intro n
  induction n with
  | zero =>
    intro t t' q j h
    exact absurd h (by simp [compileLoop])
  | succ m ih =>
    intro t t' q j h
    unfold compileLoop at h
    match q with
    | [] =>
      try dsimp only at h
      injection h with h1
      injection h1 with h1 h2
      subst h1; subst h2
      exact ⟨rfl, SchemasExt.rfl⟩
    | loc :: rest =>
      dsimp only at h
      split at h
      · exact absurd h (by simp)
      · split at h
        · exact absurd h (by simp)
        · exact absurd h (by simp)
        · split at h
          · exact absurd h (by simp)
          next sch t2 q2 heqC =>
            cases q2 with
            | nil =>
              have h' : CResult.err (α := Schemas × Nat)
                  (CompileError.Bug "queue must be non-empty") = CResult.ok (t', j) := h
              exact absurd h' (by simp)
            | cons popped rest2 =>
              have h' : compileLoop c m (t2.insert popped sch).2 rest2 (some i) =
                  CResult.ok (t', j) := h
              obtain ⟨hj, hext⟩ := ih h'
              refine ⟨hj, SchemasExt.comp (compileOne_stepOK heqC).1 ?_⟩
              exact SchemasExt.comp (insert_ext' t2 popped sch) hext

theorem compileLoop_start {c : Compiler} {hdl : Nat} :
    ∀ {n : Nat} {t t' : Schemas} {loc : String} {rest : List String} {j : Nat},
      assocFind t.map loc = some hdl →
      compileLoop c n t (loc :: rest) none = .ok (t', j) →
      j = hdl ∧ SchemasExt t t' := by
  intro n
  match n with
  | 0 =>
    intro t t' loc rest j _ h
    exact absurd h (by simp [compileLoop])
  | m + 1 =>
    intro t t' loc rest j hstart h
    unfold compileLoop at h
    try dsimp only at h
    split at h
    · exact absurd h (by simp)
    · split at h
      · exact absurd h (by simp)
      · exact absurd h (by simp)
      · split at h
        · exact absurd h (by simp)
        next sch t2 q2 heqC =>
          obtain ⟨ext2, d, hq⟩ := compileOne_stepOK heqC
          subst hq
          have h' : compileLoop c m (t2.insert loc sch).2 (rest ++ d)
              (some (t2.insert loc sch).1) = CResult.ok (t', j) := h
          have hfound : assocFind t2.map loc = some hdl := ext2 _ _ hstart
          rw [insert_fst_found sch hfound] at h'
          obtain ⟨hj, hext⟩ := compileLoop_some h'
          refine ⟨hj, SchemasExt.comp ext2 ?_⟩
          exact SchemasExt.comp (insert_ext' t2 loc sch) hext

/-- A location already in the arena map short-circuits `compile`. -/
theorem compile_already {c : Compiler} {fuel : Nat} {t : Schemas} {loc : String}
    {hdl : Nat} (hl : assocFind t.map (canonLoc loc) = some hdl) :
    c.compile fuel t loc = .ok (t, hdl) := by
  unfold Compiler.compile
  dsimp only
  rw [enqueue_found hl]
  rfl

/-- After a successful `compile`, the canonicalized start location is mapped
to the returned handle. -/
theorem compile_lookup {c : Compiler} {fuel : Nat} {t t' : Schemas}
    {loc : String} {hdl : Nat} (h : c.compile fuel t loc = .ok (t', hdl)) :
    assocFind t'.map (canonLoc loc) = some hdl := by
  unfold Compiler.compile at h
  dsimp only at h
  cases hE : assocFind t.map (canonLoc loc) with
  | some n =>
    rw [enqueue_found hE] at h
    dsimp only [List.isEmpty] at h
    injection h with h1
    injection h1 with h1 h2
    subst h1; subst h2
    exact hE
  | none =>
    have henq : t.enqueue [] (canonLoc loc) =
        (t.recs.length,
         ⟨t.recs ++ [none], t.map ++ [(canonLoc loc, t.recs.length)]⟩,
         [canonLoc loc]) := by
      unfold Schemas.enqueue
      rw [hE]
      rfl
    rw [henq] at h
    dsimp only [List.isEmpty] at h
    have hself : assocFind
        (Schemas.mk (t.recs ++ [none]) (t.map ++ [(canonLoc loc, t.recs.length)])).map
        (canonLoc loc) = some t.recs.length := assocFind_append_self hE
    obtain ⟨hj, hext⟩ := compileLoop_start hself h
    subst hj
    exact hext _ _ hself

/-! ### Projections of successful `compile_one` runs (used by witnesses). -/

/-- The record of a successful `compile_one` run. -/
def okPart1 (x : Except CompileError (Schema × Schemas × List String)) : Schema :=
  match x with
  | .ok r => r.1
  | .error _ => {}

/-- The arena of a successful `compile_one` run. -/
def okPart2 (x : Except CompileError (Schema × Schemas × List String)) : Schemas :=
  match x with
  | .ok r => r.2.1
  | .error _ => {}

/-- The queue of a successful `compile_one` run. -/
def okPart3 (x : Except CompileError (Schema × Schemas × List String)) : List String :=
  match x with
  | .ok r => r.2.2
  | .error _ => []

/-! ### Witness fixtures: a one-document compiler, pre-seeded at URL `u`. -/

/-- A draft-4 root whose document is the boolean schema `true`; resolution is
the identity on the document URL. -/
def wRootBool : Root :=
  { draftVersion := 4
    doc := Value.bool true
    vocabsList := []
    baseUrl := fun _ => "u"
    resolveF := fun s => .ok (s ++ "#")
    joinF := fun _ r => some r
    resourceF := fun _ => none }

/-- A compiler pre-seeded with the boolean document at `u`. -/
def wCompilerBool : Compiler := { roots := [("u", wRootBool)] }

/-! ### Claim C1 -/

/-- Claim C1: for every successful call to `compile(arena, start_loc)`, the
handle returned equals the handle assigned to the starting location (after
canonicalization, i.e. under the key `canonLoc start_loc` of the arena's
location map), regardless of how many other locations are compiled in the
same run. -/
theorem C1_compile_returns_start_handle (c : Compiler) (fuel : Nat) (t : Schemas)
    (loc : String) (hok : (c.compile fuel t loc).isOkR = true) :
    (c.compile fuel t loc).mapR
      (fun r => decide (assocFind r.1.map (canonLoc loc) = some r.2)) =
      CResult.ok true := by
  cases hE : c.compile fuel t loc with
  | ok r =>
    obtain ⟨t', hdl⟩ := r
    have hl := compile_lookup hE
    simp [CResult.mapR, hl]
  | err e =>
    rw [hE] at hok
    simp [CResult.isOkR] at hok
  | fuelOut =>
    rw [hE] at hok
    simp [CResult.isOkR] at hok

/-- Witness for C1: compiling the pre-seeded boolean document at `u` succeeds
and the returned handle is the one recorded for `u#`. -/
theorem C1_witness :
    (wCompilerBool.compile 5 {} "u").mapR
      (fun r => decide (assocFind r.1.map (canonLoc "u") = some r.2)) =
      CResult.ok true :=
  C1_compile_returns_start_handle wCompilerBool 5 {} "u" rfl

/-! ### Claim C2 -/

/-- Claim C2: compiling the same starting location a second time on the arena
produced by the first call gives back exactly the first call's result — the
same handle and the identical arena (no records added); errors and
fuel-exhaustion pass through unchanged. -/
theorem C2_compile_idempotent (c : Compiler) (fuel fuel' : Nat) (t : Schemas)
    (loc : String) :
    (c.compile fuel t loc).bindR (fun r => c.compile fuel' r.1 loc) =
      c.compile fuel t loc := by
  cases hE : c.compile fuel t loc with
  | ok r =>
    obtain ⟨t', hdl⟩ := r
    have hl := compile_lookup hE
    simp only [CResult.bindR]
    exact compile_already hl
  | err e => simp [CResult.bindR]
  | fuelOut => simp [CResult.bindR]

/-! ### Claim C3: the pre-2019 `$ref` collapse -/

/-- In pre-2019 drafts every vocabulary is implicitly present. -/
theorem hasVocab_pre2019 {root : Root} (hv : root.draftVersion < 2019)
    (name : String) : root.hasVocab name = true := by
  unfold Root.hasVocab
  simp [hv]

/-- Claim C3 as stated is false: a draft-4 object whose `$ref` member is not a
string (here the number `1`) compiles successfully, its `$ref` field stays
unset, and the sibling keyword `minimum` IS lowered into the record — so it is
not the case that for every pre-2019 schema object containing the `$ref`
keyword only the `$ref` field is populated among semantic fields. -/
theorem C3_counterexample :
    (okPart1 (compileOne wCompilerBool {}
        (Value.obj [("$ref", Value.num (JNum.ofNat 1)),
                    ("minimum", Value.num (JNum.ofNat 3))])
        "u#" wRootBool [])).ref_ = none ∧
    (okPart1 (compileOne wCompilerBool {}
        (Value.obj [("$ref", Value.num (JNum.ofNat 1)),
                    ("minimum", Value.num (JNum.ofNat 3))])
        "u#" wRootBool [])).minimum = some (JNum.ofNat 3) ∧
    isOkE (compileOne wCompilerBool {}
        (Value.obj [("$ref", Value.num (JNum.ofNat 1)),
                    ("minimum", Value.num (JNum.ofNat 3))])
        "u#" wRootBool []) = true :=
  ⟨rfl, rfl, rfl⟩

/-- Claim C3 (amended: the `$ref` member must hold a string, as the lowering
only recognizes string-valued `$ref`): for every schema object compiled under
a draft with version < 2019 whose `$ref` member is a string, lowering stops
after resolving `$ref` — the compiled record holds a `$ref` handle and every
other semantic field keeps its default (empty) value; only the identity fields
(location, draft version, index, resource, dynamic-anchor map) are set
besides `$ref`. -/
theorem C3_ref_collapse (c : Compiler) (st : Schemas)
    (o : List (String × Value)) (loc : String) (root : Root) (q : List String)
    (r : String) (s' : Schema) (st' : Schemas) (q' : List String)
    (hv : root.draftVersion < 2019)
    (href : jget o "$ref" = some (Value.str r))
    (h : compileOne c st (Value.obj o) loc root q = .ok (s', st', q')) :
    s'.ref_.isSome = true ∧
    s' = { Schema.new loc with
           draftVersion := root.draftVersion, index := s'.index,
           resource := s'.resource, dynamicAnchors := s'.dynamicAnchors,
           ref_ := s'.ref_ } := by
  unfold compileOne at h
  try dsimp only at h
  obtain ⟨baseLoc, hRes, h⟩ := ebind_ok h
  try dsimp only at h
  rw [if_neg (fun hc => absurd hc.2 (by omega))] at h
  unfold lowerObj at h
  obtain ⟨r1, hCore, h⟩ := ebind_ok h
  obtain ⟨s1, st1, q1⟩ := r1
  unfold lowerCore at hCore
  rw [hasVocab_pre2019 hv "core"] at hCore
  dsimp only at hCore
  obtain ⟨rr, hRef, hCont⟩ := ebind_ok hCore
  obtain ⟨x, st2, q2⟩ := rr
  unfold enqueueRef at hRef
  rw [href] at hRef
  dsimp only at hRef
  split at hRef
  · exact absurd hRef (by simp)
  · split at hRef
    · exact absurd hRef (by simp)
    · injection hRef with h1
      injection h1 with h1 h2
      injection h2 with h2 h3
      subst h1; subst h2; subst h3
      injection hCont with h1
      injection h1 with h1 h2
      injection h2 with h2 h3
      subst h1; subst h2; subst h3
      try dsimp only at h
      split at h
      · injection h with h1
        injection h1 with h1 h2
        subst h1
        exact ⟨rfl, rfl⟩
      · next hcond => exact absurd ⟨rfl, hv⟩ hcond

/-- The object used by the C3 witness: a draft-4 schema with a string `$ref`
and a sibling `minimum`. -/
def c3obj : List (String × Value) :=
  [("$ref", Value.str "u"), ("minimum", Value.num (JNum.ofNat 3))]

/-- The C3 witness run. -/
def c3run : Except CompileError (Schema × Schemas × List String) :=
  compileOne wCompilerBool {} (Value.obj c3obj) "u#" wRootBool []

/-- Witness for C3: the draft-4 object `{"$ref": "u", "minimum": 3}` compiles
to a record with a `$ref` handle and all other semantic fields at their
defaults. -/
theorem C3_witness :
    (okPart1 c3run).ref_.isSome = true ∧
    okPart1 c3run =
      { Schema.new "u#" with
        draftVersion := wRootBool.draftVersion, index := (okPart1 c3run).index,
        resource := (okPart1 c3run).resource,
        dynamicAnchors := (okPart1 c3run).dynamicAnchors,
        ref_ := (okPart1 c3run).ref_ } :=
  C3_ref_collapse wCompilerBool {} c3obj "u#" wRootBool [] "u"
    (okPart1 c3run) (okPart2 c3run) (okPart3 c3run) (by decide) rfl rfl

/-! ### Claim C8: boolean and trivial schemas -/

/-- Enqueuing either leaves the queue alone or appends the one location. -/
theorem enqueue_queue_sub (st : Schemas) (q : List String) (l : String) :
    (st.enqueue q l).2.2 = q ∨ (st.enqueue q l).2.2 = q ++ [l] := by
  unfold Schemas.enqueue
  split
  · exact Or.inl rfl
  · exact Or.inr rfl

/-- Every location the dynamic-anchor loop appends to the queue has the form
`<url>#<anchor-pointer>`. -/
theorem danchorList_queue :
    ∀ (das : List String) (st : Schemas) (q : List String) (url : String)
      (anchors : List (String × String)),
      ∃ d, (danchorList st q url anchors das).2.2 = q ++ d ∧
        ∀ l ∈ d, ∃ a, l = url ++ "#" ++ (assocFind anchors a).getD "" := by
  intro das
  induction das with
  | nil =>
    intro st q url anchors
    exact ⟨[], by simp [danchorList], by simp⟩
  | cons a rest ih =>
    intro st q url anchors
    have hgoal : (danchorList st q url anchors (a :: rest)).2.2 =
        (danchorList (st.enqueue q (url ++ "#" ++ (assocFind anchors a).getD "")).2.1
          (st.enqueue q (url ++ "#" ++ (assocFind anchors a).getD "")).2.2
          url anchors rest).2.2 := rfl
    obtain ⟨d2, hd2, hmem2⟩ :=
      ih (st.enqueue q (url ++ "#" ++ (assocFind anchors a).getD "")).2.1
         (st.enqueue q (url ++ "#" ++ (assocFind anchors a).getD "")).2.2 url anchors
    rcases enqueue_queue_sub st q (url ++ "#" ++ (assocFind anchors a).getD "")
        with h1 | h1
    · refine ⟨d2, ?_, hmem2⟩
      rw [hgoal, hd2, h1]
    · refine ⟨(url ++ "#" ++ (assocFind anchors a).getD "") :: d2, ?_, ?_⟩
      · rw [hgoal, hd2, h1]
        simp
      · intro l hl
        rcases List.mem_cons.mp hl with h2 | h2
        · exact ⟨a, h2⟩
        · exact hmem2 l h2

/-- The `boolean` field `compile_one` gives a non-object value: the boolean
itself for a boolean, unset for everything else. -/
def vBool : Value → Option Bool
  | .bool b => some b
  | _ => none

/-- The queue after the `compile_one` prologue on an already-indexed location
is the input queue plus resource-linkage locations only: possibly the
resolved resource root, and dynamic-anchor locations of a resource root. -/
theorem c8queue {st : Schemas} {q : List String} {bl : String} {root : Root}
    {loc : String} (qq : List String)
    (hqq : qq = (st.enqueue q bl).2.2 ∨
      ∃ res, root.resourceF (split loc).2 = some res ∧
        qq = (danchorList (st.enqueue q bl).2.1 (st.enqueue q bl).2.2
          (split loc).1 res.anchors res.dynamicAnchors).2.2) :
    ∃ d, qq = q ++ d ∧
      ∀ l ∈ d, l = bl ∨ ∃ res a, root.resourceF (split loc).2 = some res ∧
        l = (split loc).1 ++ "#" ++ (assocFind res.anchors a).getD "" := by
  rcases hqq with rfl | ⟨res, heqRes, rfl⟩
  · rcases enqueue_queue_sub st q bl with h1 | h1
    · exact ⟨[], by simp [h1], by simp⟩
    · refine ⟨[bl], by simp [h1], ?_⟩
      intro l hl
      exact Or.inl (List.mem_singleton.mp hl)
  · obtain ⟨d2, hd2, hmem2⟩ := danchorList_queue res.dynamicAnchors
      (st.enqueue q bl).2.1 (st.enqueue q bl).2.2 (split loc).1 res.anchors
    rcases enqueue_queue_sub st q bl with h1 | h1
    · refine ⟨d2, by rw [hd2, h1], ?_⟩
      intro l hl
      obtain ⟨a, ha⟩ := hmem2 l hl
      exact Or.inr ⟨res, a, heqRes, ha⟩
    · refine ⟨bl :: d2, by rw [hd2, h1]; simp, ?_⟩
      intro l hl
      rcases List.mem_cons.mp hl with h2 | h2
      · exact Or.inl h2
      · obtain ⟨a, ha⟩ := hmem2 l h2
        exact Or.inr ⟨res, a, heqRes, ha⟩

/-- Claim C8 as stated is false on the "no children" part: lowering the
boolean schema `true` at location `u#/x` (whose resource root `u#` is not yet
in the arena) enqueues the child location `u#` — the queue grows from `[]` to
`["u#"]` — even though the produced record is the boolean record. -/
theorem C8_counterexample :
    okPart3 (compileOne wCompilerBool ⟨[none], [("u#/x", 0)]⟩
        (Value.bool true) "u#/x" wRootBool []) = ["u#"] ∧
    okPart3 (compileOne wCompilerBool ⟨[none], [("u#/x", 0)]⟩
        (Value.bool true) "u#/x" wRootBool []) ≠ [] ∧
    (okPart1 (compileOne wCompilerBool ⟨[none], [("u#/x", 0)]⟩
        (Value.bool true) "u#/x" wRootBool [])).boolean = some true ∧
    isOkE (compileOne wCompilerBool ⟨[none], [("u#/x", 0)]⟩
        (Value.bool true) "u#/x" wRootBool []) = true := by
  refine ⟨rfl, ?_, rfl, rfl⟩
  rw [show okPart3 (compileOne wCompilerBool ⟨[none], [("u#/x", 0)]⟩
      (Value.bool true) "u#/x" wRootBool []) = ["u#"] from rfl]
  simp

/-- Claim C8 (amended: lowering a boolean produces the boolean record, and
any other non-object value produces the empty record, with no subschema
fields; in both cases lowering enqueues no child locations **other than** the
resource-linkage locations — the resolved resource root and, on a 2020
resource root, its dynamic-anchor locations). -/
theorem C8_boolean_and_trivial (c : Compiler) (st : Schemas) (v : Value)
    (loc : String) (root : Root) (q : List String) (bl : String) (i : Nat)
    (s' : Schema) (st' : Schemas) (q' : List String)
    (hres : root.resolveF (root.baseUrl (split loc).2) = .ok bl)
    (hloc : assocFind st.map loc = some i)
    (hv : ∀ o, v ≠ Value.obj o)
    (h : compileOne c st v loc root q = .ok (s', st', q')) :
    s'.boolean = vBool v ∧
    s' = { Schema.new loc with
           draftVersion := root.draftVersion, index := s'.index,
           resource := s'.resource, dynamicAnchors := s'.dynamicAnchors,
           boolean := vBool v } ∧
    ∃ d, q' = q ++ d ∧
      ∀ l ∈ d, l = bl ∨ ∃ res a, root.resourceF (split loc).2 = some res ∧
        l = (split loc).1 ++ "#" ++ (assocFind res.anchors a).getD "" := by
  cases v with
  | obj o => exact absurd rfl (hv o)
  | bool b =>
    unfold compileOne at h
    try dsimp only at h
    obtain ⟨baseLoc, hRes', h⟩ := ebind_ok h
    rw [hres] at hRes'
    injection hRes' with hbl
    subst hbl
    rw [enqueue_found hloc] at h
    try dsimp only at h
    split at h
    · split at h
      next res heqRes =>
        injection h with h1
        injection h1 with h1 h2
        injection h2 with h2 h3
        subst h1; subst h2; subst h3
        exact ⟨rfl, rfl, c8queue _ (Or.inr ⟨res, heqRes, rfl⟩)⟩
      next =>
        injection h with h1
        injection h1 with h1 h2
        injection h2 with h2 h3
        subst h1; subst h2; subst h3
        exact ⟨rfl, rfl, c8queue _ (Or.inl rfl)⟩
    · injection h with h1
      injection h1 with h1 h2
      injection h2 with h2 h3
      subst h1; subst h2; subst h3
      exact ⟨rfl, rfl, c8queue _ (Or.inl rfl)⟩
  | null =>
    unfold compileOne at h
    try dsimp only at h
    obtain ⟨baseLoc, hRes', h⟩ := ebind_ok h
    rw [hres] at hRes'
    injection hRes' with hbl
    subst hbl
    rw [enqueue_found hloc] at h
    try dsimp only at h
    split at h
    · split at h
      next res heqRes =>
        injection h with h1
        injection h1 with h1 h2
        injection h2 with h2 h3
        subst h1; subst h2; subst h3
        exact ⟨rfl, rfl, c8queue _ (Or.inr ⟨res, heqRes, rfl⟩)⟩
      next =>
        injection h with h1
        injection h1 with h1 h2
        injection h2 with h2 h3
        subst h1; subst h2; subst h3
        exact ⟨rfl, rfl, c8queue _ (Or.inl rfl)⟩
    · injection h with h1
      injection h1 with h1 h2
      injection h2 with h2 h3
      subst h1; subst h2; subst h3
      exact ⟨rfl, rfl, c8queue _ (Or.inl rfl)⟩
  | num n =>
    unfold compileOne at h
    try dsimp only at h
    obtain ⟨baseLoc, hRes', h⟩ := ebind_ok h
    rw [hres] at hRes'
    injection hRes' with hbl
    subst hbl
    rw [enqueue_found hloc] at h
    try dsimp only at h
    split at h
    · split at h
      next res heqRes =>
        injection h with h1
        injection h1 with h1 h2
        injection h2 with h2 h3
        subst h1; subst h2; subst h3
        exact ⟨rfl, rfl, c8queue _ (Or.inr ⟨res, heqRes, rfl⟩)⟩
      next =>
        injection h with h1
        injection h1 with h1 h2
        injection h2 with h2 h3
        subst h1; subst h2; subst h3
        exact ⟨rfl, rfl, c8queue _ (Or.inl rfl)⟩
    · injection h with h1
      injection h1 with h1 h2
      injection h2 with h2 h3
      subst h1; subst h2; subst h3
      exact ⟨rfl, rfl, c8queue _ (Or.inl rfl)⟩
  | str t =>
    unfold compileOne at h
    try dsimp only at h
    obtain ⟨baseLoc, hRes', h⟩ := ebind_ok h
    rw [hres] at hRes'
    injection hRes' with hbl
    subst hbl
    rw [enqueue_found hloc] at h
    try dsimp only at h
    split at h
    · split at h
      next res heqRes =>
        injection h with h1
        injection h1 with h1 h2
        injection h2 with h2 h3
        subst h1; subst h2; subst h3
        exact ⟨rfl, rfl, c8queue _ (Or.inr ⟨res, heqRes, rfl⟩)⟩
      next =>
        injection h with h1
        injection h1 with h1 h2
        injection h2 with h2 h3
        subst h1; subst h2; subst h3
        exact ⟨rfl, rfl, c8queue _ (Or.inl rfl)⟩
    · injection h with h1
      injection h1 with h1 h2
      injection h2 with h2 h3
      subst h1; subst h2; subst h3
      exact ⟨rfl, rfl, c8queue _ (Or.inl rfl)⟩
  | arr a =>
    unfold compileOne at h
    try dsimp only at h
    obtain ⟨baseLoc, hRes', h⟩ := ebind_ok h
    rw [hres] at hRes'
    injection hRes' with hbl
    subst hbl
    rw [enqueue_found hloc] at h
    try dsimp only at h
    split at h
    · split at h
      next res heqRes =>
        injection h with h1
        injection h1 with h1 h2
        injection h2 with h2 h3
        subst h1; subst h2; subst h3
        exact ⟨rfl, rfl, c8queue _ (Or.inr ⟨res, heqRes, rfl⟩)⟩
      next =>
        injection h with h1
        injection h1 with h1 h2
        injection h2 with h2 h3
        subst h1; subst h2; subst h3
        exact ⟨rfl, rfl, c8queue _ (Or.inl rfl)⟩
    · injection h with h1
      injection h1 with h1 h2
      injection h2 with h2 h3
      subst h1; subst h2; subst h3
      exact ⟨rfl, rfl, c8queue _ (Or.inl rfl)⟩

/-- The C8 witness run: the boolean schema at `u#/x`. -/
def c8run : Except CompileError (Schema × Schemas × List String) :=
  compileOne wCompilerBool ⟨[none], [("u#/x", 0)]⟩ (Value.bool true) "u#/x" wRootBool []

/-- The second C8 witness run: the trivial schema `null` at `u#/x`. -/
def c8run2 : Except CompileError (Schema × Schemas × List String) :=
  compileOne wCompilerBool ⟨[none], [("u#/x", 0)]⟩ Value.null "u#/x" wRootBool []

/-- Witness for the amended C8, at a boolean and at a `null` document. -/
theorem C8_witness :
    ((okPart1 c8run).boolean = vBool (Value.bool true) ∧
      okPart1 c8run =
        { Schema.new "u#/x" with
          draftVersion := wRootBool.draftVersion,
          index := (okPart1 c8run).index,
          resource := (okPart1 c8run).resource,
          dynamicAnchors := (okPart1 c8run).dynamicAnchors,
          boolean := vBool (Value.bool true) } ∧
      ∃ d, okPart3 c8run = [] ++ d ∧
        ∀ l ∈ d, l = "u#" ∨ ∃ res a,
          wRootBool.resourceF (split "u#/x").2 = some res ∧
          l = (split "u#/x").1 ++ "#" ++ (assocFind res.anchors a).getD "") ∧
    ((okPart1 c8run2).boolean = vBool Value.null ∧
      okPart1 c8run2 =
        { Schema.new "u#/x" with
          draftVersion := wRootBool.draftVersion,
          index := (okPart1 c8run2).index,
          resource := (okPart1 c8run2).resource,
          dynamicAnchors := (okPart1 c8run2).dynamicAnchors,
          boolean := vBool Value.null } ∧
      ∃ d, okPart3 c8run2 = [] ++ d ∧
        ∀ l ∈ d, l = "u#" ∨ ∃ res a,
          wRootBool.resourceF (split "u#/x").2 = some res ∧
          l = (split "u#/x").1 ++ "#" ++ (assocFind res.anchors a).getD "") :=
  ⟨C8_boolean_and_trivial wCompilerBool ⟨[none], [("u#/x", 0)]⟩
      (Value.bool true) "u#/x" wRootBool [] "u#" 0
      (okPart1 c8run) (okPart2 c8run) (okPart3 c8run)
      rfl rfl (fun _ hx => Value.noConfusion hx) rfl,
   C8_boolean_and_trivial wCompilerBool ⟨[none], [("u#/x", 0)]⟩
      Value.null "u#/x" wRootBool [] "u#" 0
      (okPart1 c8run2) (okPart2 c8run2) (okPart3 c8run2)
      rfl rfl (fun _ hx => Value.noConfusion hx) rfl⟩

/-! ### Decomposition of a successful object lowering -/

/-- A successful `compile_one` on a JSON object either took the pre-2019
`$ref` collapse (and the record is the prologue record plus the `$ref`
handle), or it ran the whole group chain; in the latter case the record fed
into the applicator group is the prologue record (semantic fields at their
defaults) and the final record is reached through the groups in source
order. -/
theorem compileOne_obj_decomp (c : Compiler) (st : Schemas)
    (o : List (String × Value)) (loc : String) (root : Root) (q : List String)
    (s' : Schema) (st' : Schemas) (q' : List String)
    (h : compileOne c st (Value.obj o) loc root q = .ok (s', st', q')) :
    (s'.ref_.isSome = true ∧ root.draftVersion < 2019 ∧
      (∃ r, jget o "$ref" = some (Value.str r)) ∧
      s' = { Schema.new loc with
             draftVersion := root.draftVersion, index := s'.index,
             resource := s'.resource, dynamicAnchors := s'.dynamicAnchors,
             ref_ := s'.ref_ }) ∨
    (∃ s1 st1 q1 sA stA qA sV s6 st6 q6 s7 st7 q7 s9 st9 q9,
      s1 = { Schema.new loc with
             draftVersion := root.draftVersion, index := s1.index,
             resource := s1.resource, dynamicAnchors := s1.dynamicAnchors,
             ref_ := s1.ref_ } ∧
      lowerApplicator c st1 s1 o loc root q1 = .ok (sA, stA, qA) ∧
      lowerValidation c root sA o = .ok sV ∧
      lowerDraft6 root stA (lowerFormat c root sV o) o loc qA = (s6, st6, q6) ∧
      lowerDraft7 c root st6 s6 o loc q6 = (s7, st7, q7) ∧
      lowerDraft2019 st7 s7 o loc root q7 = .ok (s9, st9, q9) ∧
      lowerDraft2020 st9 s9 o loc root q9 = .ok (s', st', q')) := by
  unfold compileOne at h
  try dsimp only at h
  obtain ⟨baseLoc, hRes, h⟩ := ebind_ok h
  try dsimp only at h
  unfold lowerObj at h
  obtain ⟨r1, hCore, h⟩ := ebind_ok h
  obtain ⟨s1, st1, q1⟩ := r1
  try dsimp only at h
  have hs1 : s1 = { Schema.new loc with
      draftVersion := root.draftVersion, index := s1.index,
      resource := s1.resource, dynamicAnchors := s1.dynamicAnchors,
      ref_ := s1.ref_ } ∧ (s1.ref_.isSome = true →
        ∃ r, jget o "$ref" = some (Value.str r)) := by
    unfold lowerCore at hCore
    split at hCore
    · obtain ⟨rr, hRef, hCont⟩ := ebind_ok hCore
      obtain ⟨x, st2, q2⟩ := rr
      injection hCont with h1
      injection h1 with h1 h2
      injection h2 with h2 h3
      subst h1; subst h2; subst h3
      unfold enqueueRef at hRef
      split at hRef
      next v r heq =>
        refine ⟨?_, fun _ => ⟨r, heq⟩⟩
        split
        · split <;> rfl
        · rfl
      next hne =>
        injection hRef with h1
        injection h1 with h1 h2
        subst h1
        refine ⟨?_, fun hsome => by simp at hsome⟩
        split
        · split <;> rfl
        · rfl
    · injection hCore with h1
      injection h1 with h1 h2
      injection h2 with h2 h3
      subst h1; subst h2; subst h3
      refine ⟨?_, fun hsome => ?_⟩
      · split
        · split <;> rfl
        · rfl
      · revert hsome
        split
        · split <;> simp [Schema.new]
        · simp [Schema.new]
  split at h
  · next hcond =>
    injection h with h1
    injection h1 with h1 h2
    injection h2 with h2 h3
    subst h1; subst h2; subst h3
    exact Or.inl ⟨hcond.1, hcond.2, hs1.2 hcond.1, hs1.1⟩
  · obtain ⟨r2, hApp, h⟩ := ebind_ok h
    obtain ⟨sA, stA, qA⟩ := r2
    try dsimp only at h
    obtain ⟨sV, hVal, h⟩ := ebind_ok h
    try dsimp only at h
    obtain ⟨r4, h2019, h⟩ := ebind_ok h
    obtain ⟨s9, st9, q9⟩ := r4
    exact Or.inr ⟨s1, st1, q1, sA, stA, qA, sV, _, _, _, _, _, _, s9, st9, q9,
      hs1.1, hApp, hVal, rfl, rfl, h2019, h⟩

/-! ### Field tracking through the keyword groups -/

/-- The four numeric-bound fields. -/
def numFields (s : Schema) : Option JNum × Option JNum × Option JNum × Option JNum :=
  (s.maximum, s.exclusiveMaximum, s.minimum, s.exclusiveMinimum)

/-- The three conditional-keyword fields. -/
def condFields (s : Schema) : Option Nat × Option Nat × Option Nat :=
  (s.if_, s.then_, s.else_)

/-- The two pre-2020 `items` fields. -/
def itemFields (s : Schema) : Option Items × Option Additional :=
  (s.items, s.additionalItems)

/-- The two 2020 `items` fields. -/
def items2020Fields (s : Schema) : List Nat × Option Nat :=
  (s.prefixItems, s.items2020)

/-- The `maxContains`/`minContains` fields. -/
def mcFields (s : Schema) : Option Nat × Option Nat :=
  (s.maxContains, s.minContains)

theorem lowerTypesEnum_pres (s : Schema) (o : List (String × Value)) :
    numFields (lowerTypesEnum s o) = numFields s ∧
    condFields (lowerTypesEnum s o) = condFields s ∧
    itemFields (lowerTypesEnum s o) = itemFields s ∧
    items2020Fields (lowerTypesEnum s o) = items2020Fields s ∧
    mcFields (lowerTypesEnum s o) = mcFields s ∧
    (lowerTypesEnum s o).contains = s.contains ∧
    (lowerTypesEnum s o).format = s.format := by
  unfold lowerTypesEnum
  split <;> exact ⟨rfl, rfl, rfl, rfl, rfl, rfl, rfl⟩

theorem lowerNumBounds_pres (s : Schema) (o : List (String × Value)) :
    condFields (lowerNumBounds s o) = condFields s ∧
    itemFields (lowerNumBounds s o) = itemFields s ∧
    items2020Fields (lowerNumBounds s o) = items2020Fields s ∧
    mcFields (lowerNumBounds s o) = mcFields s ∧
    (lowerNumBounds s o).contains = s.contains ∧
    (lowerNumBounds s o).format = s.format := by
  unfold lowerNumBounds
  dsimp only
  repeat' split
  all_goals exact ⟨rfl, rfl, rfl, rfl, rfl, rfl⟩

theorem lowerNumBounds_char (s : Schema) (o : List (String × Value)) :
    (lowerNumBounds s o).maximum =
      (match jget o "exclusiveMaximum" with
       | some (Value.bool ex) => if ex then none else loadNum o "maximum"
       | _ => loadNum o "maximum") ∧
    (lowerNumBounds s o).exclusiveMaximum =
      (match jget o "exclusiveMaximum" with
       | some (Value.bool ex) =>
         if ex then loadNum o "maximum" else s.exclusiveMaximum
       | _ => loadNum o "exclusiveMaximum") ∧
    (lowerNumBounds s o).minimum =
      (match jget o "exclusiveMinimum" with
       | some (Value.bool ex) => if ex then none else loadNum o "minimum"
       | _ => loadNum o "minimum") ∧
    (lowerNumBounds s o).exclusiveMinimum =
      (match jget o "exclusiveMinimum" with
       | some (Value.bool ex) =>
         if ex then loadNum o "minimum" else s.exclusiveMinimum
       | _ => loadNum o "exclusiveMinimum") := by
  unfold lowerNumBounds
  dsimp only
  repeat' split
  all_goals exact ⟨rfl, rfl, rfl, rfl⟩

theorem lowerLengthPattern_pres {c : Compiler} {s s' : Schema}
    {o : List (String × Value)} (h : lowerLengthPattern c s o = .ok s') :
    numFields s' = numFields s ∧
    condFields s' = condFields s ∧
    itemFields s' = itemFields s ∧
    items2020Fields s' = items2020Fields s ∧
    mcFields s' = mcFields s ∧
    s'.contains = s.contains ∧
    s'.format = s.format := by
  unfold lowerLengthPattern at h
  split at h
  · split at h
    · injection h with h1
      subst h1
      exact ⟨rfl, rfl, rfl, rfl, rfl, rfl, rfl⟩
    · exact absurd h (by simp)
  · injection h with h1
    subst h1
    exact ⟨rfl, rfl, rfl, rfl, rfl, rfl, rfl⟩

theorem lowerContainerBounds_pres (s : Schema) (o : List (String × Value)) :
    numFields (lowerContainerBounds s o) = numFields s ∧
    condFields (lowerContainerBounds s o) = condFields s ∧
    itemFields (lowerContainerBounds s o) = itemFields s ∧
    items2020Fields (lowerContainerBounds s o) = items2020Fields s ∧
    mcFields (lowerContainerBounds s o) = mcFields s ∧
    (lowerContainerBounds s o).contains = s.contains ∧
    (lowerContainerBounds s o).format = s.format := by
  unfold lowerContainerBounds
  dsimp only
  repeat' split
  all_goals exact ⟨rfl, rfl, rfl, rfl, rfl, rfl, rfl⟩

/-- Successful validation lowering: the non-validation fields pass through,
and the numeric-bound fields are exactly the `lowerNumBounds` result on the
`lowerTypesEnum`-updated record. -/
theorem lowerValidation_pres {c : Compiler} {root : Root} {s s' : Schema}
    {o : List (String × Value)} (h : lowerValidation c root s o = .ok s') :
    condFields s' = condFields s ∧
    itemFields s' = itemFields s ∧
    items2020Fields s' = items2020Fields s ∧
    mcFields s' = mcFields s ∧
    s'.contains = s.contains ∧
    s'.format = s.format ∧
    (root.hasVocab "validation" = true →
      numFields s' = numFields (lowerNumBounds (lowerTypesEnum s o) o)) ∧
    (root.hasVocab "validation" = false → numFields s' = numFields s) := by
  unfold lowerValidation at h
  split at h
  next hvv =>
    obtain ⟨sP, hPM, hF⟩ := ebind_ok h
    injection hF with h1
    subst h1
    obtain ⟨p1, p2, p3, p4, p5, p6, p7⟩ := lowerLengthPattern_pres hPM
    obtain ⟨c1, c2, c3, c4, c5, c6, c7⟩ :=
      lowerContainerBounds_pres sP o
    obtain ⟨t1, t2, t3, t4, t5, t6, t7⟩ := lowerTypesEnum_pres s o
    obtain ⟨n1, n2, n3, n4, n5, n6⟩ :=
      lowerNumBounds_pres (lowerTypesEnum s o) o
    refine ⟨?_, ?_, ?_, ?_, ?_, ?_, ?_, ?_⟩
    · rw [c2, p2, n1, t2]
    · rw [c3, p3, n2, t3]
    · rw [c4, p4, n3, t4]
    · rw [c5, p5, n4, t5]
    · rw [c6, p6, n5, t6]
    · rw [c7, p7, n6, t7]
    · intro _
      rw [c1, p1]
    · intro hvf
      rw [hvv] at hvf
      exact absurd hvf (by simp)
  next hvv =>
    injection h with h1
    subst h1
    refine ⟨rfl, rfl, rfl, rfl, rfl, rfl, ?_, fun _ => rfl⟩
    intro hvt
    simp at hvv
    rw [hvv] at hvt
    exact absurd hvt (by simp)

theorem lowerItems_upd_pres (st : Schemas) (o : List (String × Value))
    (loc : String) (root : Root) (q : List String) (s : Schema) :
    numFields ((lowerItems st o loc root q).1 s) = numFields s ∧
    condFields ((lowerItems st o loc root q).1 s) = condFields s ∧
    items2020Fields ((lowerItems st o loc root q).1 s) = items2020Fields s ∧
    mcFields ((lowerItems st o loc root q).1 s) = mcFields s ∧
    ((lowerItems st o loc root q).1 s).contains = s.contains ∧
    ((lowerItems st o loc root q).1 s).format = s.format := by
  unfold lowerItems
  dsimp only
  repeat' split
  all_goals exact ⟨rfl, rfl, rfl, rfl, rfl, rfl⟩

theorem lowerApplicator_pres {c : Compiler} {st stA : Schemas}
    {q qA : List String} {s sA : Schema} {o : List (String × Value)}
    {loc : String} {root : Root}
    (h : lowerApplicator c st s o loc root q = .ok (sA, stA, qA)) :
    numFields sA = numFields s ∧
    condFields sA = condFields s ∧
    items2020Fields sA = items2020Fields s ∧
    mcFields sA = mcFields s ∧
    sA.contains = s.contains ∧
    sA.format = s.format := by
  unfold lowerApplicator at h
  split at h
  · dsimp only at h
    obtain ⟨r, hA, hf⟩ := ebind_ok h
    obtain ⟨pp, st1, q1⟩ := r
    dsimp only at hf
    injection hf with h1
    injection h1 with h1 h2
    subst h1
    refine ⟨?_, ?_, ?_, ?_, ?_, ?_⟩
    · exact (lowerItems_upd_pres _ o loc root _ _).1
    · exact (lowerItems_upd_pres _ o loc root _ _).2.1
    · exact (lowerItems_upd_pres _ o loc root _ _).2.2.1
    · exact (lowerItems_upd_pres _ o loc root _ _).2.2.2.1
    · exact (lowerItems_upd_pres _ o loc root _ _).2.2.2.2.1
    · exact (lowerItems_upd_pres _ o loc root _ _).2.2.2.2.2
  · injection h with h1
    injection h1 with h1 h2
    subst h1
    exact ⟨rfl, rfl, rfl, rfl, rfl, rfl⟩

theorem enqueueProp_fst (st : Schemas) (q : List String)
    (o : List (String × Value)) (loc pname : String) :
    (enqueueProp st q o loc pname).1 =
      if (jget o pname).isSome then
        some (st.enqueue q (loc ++ "/" ++ escape pname)).1
      else none := by
  unfold enqueueProp
  split <;> rfl

theorem enqueueProp_fst_isSome (st : Schemas) (q : List String)
    (o : List (String × Value)) (loc pname : String) :
    ((enqueueProp st q o loc pname).1).isSome = (jget o pname).isSome := by
  rw [enqueueProp_fst]
  split <;> simp_all

theorem enqueueProp_fst_none {o : List (String × Value)} {pname : String}
    (st : Schemas) (q : List String) (loc : String)
    (hp : jget o pname = none) : (enqueueProp st q o loc pname).1 = none := by
  rw [enqueueProp_fst]
  simp [hp]

theorem enqueueList_fst_length (ls : List String) :
    ∀ (st : Schemas) (q : List String), (enqueueList st q ls).1.length = ls.length := by
  induction ls with
  | nil => intro st q; rfl
  | cons l rest ih =>
    intro st q
    unfold enqueueList
    dsimp only
    simp [ih]

theorem enquueArr_fst_length {o : List (String × Value)} {pname : String}
    {xs : List Value} (st : Schemas) (q : List String) (loc : String)
    (hp : jget o pname = some (Value.arr xs)) :
    (enquueArr st q o loc pname).1.length = xs.length := by
  unfold enquueArr
  rw [hp]
  rw [enqueueList_fst_length]
  simp

theorem additionalOf_fst (st : Schemas) (q : List String)
    (o : List (String × Value)) (loc pname : String) :
    (∀ b, jget o pname = some (Value.bool b) →
      (additionalOf st q o loc pname).1 = some (Additional.bool b)) ∧
    (jget o pname = none → (additionalOf st q o loc pname).1 = none) ∧
    ((jget o pname).isSome = true →
      (∀ b, jget o pname ≠ some (Value.bool b)) →
      ∃ h, (additionalOf st q o loc pname).1 = some (Additional.schemaRef h)) := by
  refine ⟨?_, ?_, ?_⟩
  · intro b hb
    unfold additionalOf
    rw [hb]
  · intro hb
    unfold additionalOf
    rw [hb]
    dsimp only
    rw [enqueueProp_fst_none st q loc hb]
    rfl
  · intro hsome hnb
    unfold additionalOf
    split
    next b heq => exact absurd heq (hnb b)
    · dsimp only
      rw [enqueueProp_fst]
      rw [if_pos hsome]
      exact ⟨_, rfl⟩

theorem lowerItems_upd_arr {o : List (String × Value)} {root : Root}
    {xs : List Value} (st : Schemas) (loc : String) (q : List String) (s : Schema)
    (hv : root.draftVersion < 2020)
    (hitems : jget o "items" = some (Value.arr xs)) :
    (∃ hs, ((lowerItems st o loc root q).1 s).items = some (Items.schemaRefs hs) ∧
      hs.length = xs.length) ∧
    (∀ b, jget o "additionalItems" = some (Value.bool b) →
      ((lowerItems st o loc root q).1 s).additionalItems = some (Additional.bool b)) ∧
    (jget o "additionalItems" = none →
      ((lowerItems st o loc root q).1 s).additionalItems = none) ∧
    ((jget o "additionalItems").isSome = true →
      (∀ b, jget o "additionalItems" ≠ some (Value.bool b)) →
      ∃ h, ((lowerItems st o loc root q).1 s).additionalItems =
        some (Additional.schemaRef h)) := by
  unfold lowerItems
  rw [if_pos hv, hitems]
  dsimp only
  obtain ⟨a1, a2, a3⟩ := additionalOf_fst (enquueArr st q o loc "items").2.1
    (enquueArr st q o loc "items").2.2 o loc "additionalItems"
  refine ⟨⟨(enquueArr st q o loc "items").1, rfl,
      enquueArr_fst_length st q loc hitems⟩, ?_, ?_, ?_⟩
  · intro b hb
    exact a1 b hb
  · intro hb
    exact a2 hb
  · intro hsome hnb
    exact a3 hsome hnb

theorem lowerItems_upd_nonarr {o : List (String × Value)} {root : Root}
    (st : Schemas) (loc : String) (q : List String) (s : Schema)
    (hv : root.draftVersion < 2020)
    (hsome : (jget o "items").isSome = true)
    (hnarr : ∀ xs, jget o "items" ≠ some (Value.arr xs)) :
    (∃ h, ((lowerItems st o loc root q).1 s).items = some (Items.schemaRef h)) ∧
    ((lowerItems st o loc root q).1 s).additionalItems = s.additionalItems := by
  unfold lowerItems
  rw [if_pos hv]
  split
  next xs heq => exact absurd heq (hnarr xs)
  · dsimp only
    constructor
    · refine ⟨(st.enqueue q (loc ++ "/" ++ escape "items")).1, ?_⟩
      show Option.map Items.schemaRef (enqueueProp st q o loc "items").1 =
        some (Items.schemaRef (st.enqueue q (loc ++ "/" ++ escape "items")).1)
      rw [enqueueProp_fst, if_pos hsome]
      rfl
    · rfl

theorem lowerItems_upd_2020 {root : Root} (st : Schemas)
    (o : List (String × Value)) (loc : String) (q : List String) (s : Schema)
    (hv : ¬ root.draftVersion < 2020) :
    (lowerItems st o loc root q).1 s = s := by
  unfold lowerItems
  rw [if_neg hv]

theorem lowerApplicator_items {c : Compiler} {st stA : Schemas}
    {q qA : List String} {s sA : Schema} {o : List (String × Value)}
    {loc : String} {root : Root}
    (hva : root.hasVocab "applicator" = true)
    (h : lowerApplicator c st s o loc root q = .ok (sA, stA, qA)) :
    ∃ st2 q2 s2, itemFields sA = itemFields ((lowerItems st2 o loc root q2).1 s2) ∧
      s2.additionalItems = s.additionalItems ∧ s2.items = s.items := by
  unfold lowerApplicator at h
  rw [if_pos hva] at h
  dsimp only at h
  obtain ⟨r, hA, hf⟩ := ebind_ok h
  obtain ⟨pp, st1, q1⟩ := r
  dsimp only at hf
  injection hf with h1
  injection h1 with h1 h2
  subst h1
  exact ⟨_, _, _, rfl, rfl, rfl⟩

theorem lowerFormat_pres (c : Compiler) (root : Root) (s : Schema)
    (o : List (String × Value)) :
    numFields (lowerFormat c root s o) = numFields s ∧
    condFields (lowerFormat c root s o) = condFields s ∧
    itemFields (lowerFormat c root s o) = itemFields s ∧
    items2020Fields (lowerFormat c root s o) = items2020Fields s ∧
    mcFields (lowerFormat c root s o) = mcFields s ∧
    (lowerFormat c root s o).contains = s.contains := by
  unfold lowerFormat
  repeat' split
  all_goals exact ⟨rfl, rfl, rfl, rfl, rfl, rfl⟩

theorem lowerFormat_char {o : List (String × Value)} {name : String}
    (c : Compiler) (root : Root) (s : Schema)
    (hname : jget o "format" = some (Value.str name)) :
    (lowerFormat c root s o).format =
      if c.assertFormat ||
          root.hasVocab
            (if root.draftVersion < 2019 then "core"
             else if root.draftVersion = 2019 then "format"
             else "format-assertion") then
        (match (assocFind c.formats name).orElse (fun _ => assocFind FORMATS name) with
         | some f => some (name, f)
         | none => s.format)
      else s.format := by
  unfold lowerFormat
  rw [hname]
  dsimp only
  repeat' split
  all_goals rfl

theorem lowerFormat_absent {o : List (String × Value)}
    (c : Compiler) (root : Root) (s : Schema)
    (hname : jget o "format" = none) :
    (lowerFormat c root s o).format = s.format := by
  unfold lowerFormat
  rw [hname]
  dsimp only
  repeat' split
  all_goals rfl

theorem lowerContainsProps_upd_pres (st : Schemas) (q : List String)
    (o : List (String × Value)) (loc : String) (root : Root) (s : Schema) :
    numFields ((lowerContainsProps st q o loc root).1 s) = numFields s ∧
    condFields ((lowerContainsProps st q o loc root).1 s) = condFields s ∧
    itemFields ((lowerContainsProps st q o loc root).1 s) = itemFields s ∧
    items2020Fields ((lowerContainsProps st q o loc root).1 s) = items2020Fields s ∧
    mcFields ((lowerContainsProps st q o loc root).1 s) = mcFields s ∧
    ((lowerContainsProps st q o loc root).1 s).format = s.format := by
  unfold lowerContainsProps
  repeat' split
  all_goals exact ⟨rfl, rfl, rfl, rfl, rfl, rfl⟩

theorem lowerContainsProps_upd_contains {o : List (String × Value)}
    (st : Schemas) (q : List String) (loc : String) (root : Root) (s : Schema)
    (hc : jget o "contains" = none) :
    ((lowerContainsProps st q o loc root).1 s).contains = none ∨
    ((lowerContainsProps st q o loc root).1 s).contains = s.contains := by
  unfold lowerContainsProps
  split
  · dsimp only
    exact Or.inl (enqueueProp_fst_none st q loc hc)
  · exact Or.inr rfl

theorem lowerDraft6_pres {root : Root} {st st6 : Schemas} {s s6 : Schema}
    {o : List (String × Value)} {loc : String} {q q6 : List String}
    (h : lowerDraft6 root st s o loc q = (s6, st6, q6)) :
    numFields s6 = numFields s ∧ condFields s6 = condFields s ∧
    itemFields s6 = itemFields s ∧ items2020Fields s6 = items2020Fields s ∧
    mcFields s6 = mcFields s ∧ s6.format = s.format ∧
    (jget o "contains" = none → s6.contains = none ∨ s6.contains = s.contains) := by
  unfold lowerDraft6 at h
  split at h
  · dsimp only at h
    injection h with h1 h2
    subst h1
    refine ⟨?_, ?_, ?_, ?_, ?_, ?_, ?_⟩
    · repeat' split
      all_goals exact (lowerContainsProps_upd_pres _ _ o loc root _).1
    · repeat' split
      all_goals exact (lowerContainsProps_upd_pres _ _ o loc root _).2.1
    · repeat' split
      all_goals exact (lowerContainsProps_upd_pres _ _ o loc root _).2.2.1
    · repeat' split
      all_goals exact (lowerContainsProps_upd_pres _ _ o loc root _).2.2.2.1
    · repeat' split
      all_goals exact (lowerContainsProps_upd_pres _ _ o loc root _).2.2.2.2.1
    · repeat' split
      all_goals exact (lowerContainsProps_upd_pres _ _ o loc root _).2.2.2.2.2
    · intro hc
      repeat' split
      all_goals exact lowerContainsProps_upd_contains st q loc root _ hc
  · injection h with h1 h2
    subst h1
    exact ⟨rfl, rfl, rfl, rfl, rfl, rfl, fun _ => Or.inr rfl⟩

theorem lowerIfThenElse_upd_pres (st : Schemas) (q : List String)
    (o : List (String × Value)) (loc : String) (root : Root) (s : Schema) :
    numFields ((lowerIfThenElse st q o loc root).1 s) = numFields s ∧
    itemFields ((lowerIfThenElse st q o loc root).1 s) = itemFields s ∧
    items2020Fields ((lowerIfThenElse st q o loc root).1 s) = items2020Fields s ∧
    mcFields ((lowerIfThenElse st q o loc root).1 s) = mcFields s ∧
    ((lowerIfThenElse st q o loc root).1 s).contains = s.contains ∧
    ((lowerIfThenElse st q o loc root).1 s).format = s.format := by
  unfold lowerIfThenElse
  repeat' split
  all_goals exact ⟨rfl, rfl, rfl, rfl, rfl, rfl⟩

theorem lowerIfThenElse_upd_condA {o : List (String × Value)}
    (st : Schemas) (q : List String) (loc : String) (root : Root) (s : Schema)
    (hif : jget o "if" = none) :
    ((lowerIfThenElse st q o loc root).1 s).then_ = s.then_ ∧
    ((lowerIfThenElse st q o loc root).1 s).else_ = s.else_ := by
  unfold lowerIfThenElse
  split
  · dsimp only
    split
    next hcond =>
      rw [enqueueProp_fst_none st q loc hif] at hcond
      simp at hcond
    · exact ⟨rfl, rfl⟩
  · exact ⟨rfl, rfl⟩

theorem lowerIfThenElse_upd_condB {o : List (String × Value)}
    (st : Schemas) (q : List String) (loc : String) (root : Root) (s : Schema)
    (hva : root.hasVocab "applicator" = true)
    (hifsome : (jget o "if").isSome = true) :
    ((lowerIfThenElse st q o loc root).1 s).if_.isSome = true ∧
    ((lowerIfThenElse st q o loc root).1 s).then_.isSome = (jget o "then").isSome ∧
    ((lowerIfThenElse st q o loc root).1 s).else_.isSome = (jget o "else").isSome := by
  unfold lowerIfThenElse
  rw [if_pos hva]
  dsimp only
  split
  next hcond =>
    exact ⟨hcond, enqueueProp_fst_isSome _ _ o loc "then",
      enqueueProp_fst_isSome _ _ o loc "else"⟩
  next hcond =>
    rw [enqueueProp_fst_isSome st q o loc "if"] at hcond
    exact absurd hifsome hcond

theorem lowerContent_pres (c : Compiler) (s : Schema)
    (o : List (String × Value)) :
    numFields (lowerContent c s o) = numFields s ∧
    condFields (lowerContent c s o) = condFields s ∧
    itemFields (lowerContent c s o) = itemFields s ∧
    items2020Fields (lowerContent c s o) = items2020Fields s ∧
    mcFields (lowerContent c s o) = mcFields s ∧
    (lowerContent c s o).contains = s.contains ∧
    (lowerContent c s o).format = s.format := by
  unfold lowerContent
  repeat' split
  all_goals exact ⟨rfl, rfl, rfl, rfl, rfl, rfl, rfl⟩

theorem lowerDraft7_pres {c : Compiler} {root : Root} {st st7 : Schemas}
    {s s7 : Schema} {o : List (String × Value)} {loc : String}
    {q q7 : List String}
    (h : lowerDraft7 c root st s o loc q = (s7, st7, q7)) :
    numFields s7 = numFields s ∧ itemFields s7 = itemFields s ∧
    items2020Fields s7 = items2020Fields s ∧ mcFields s7 = mcFields s ∧
    s7.contains = s.contains ∧ s7.format = s.format ∧
    (jget o "if" = none → s7.then_ = s.then_ ∧ s7.else_ = s.else_) ∧
    (7 ≤ root.draftVersion → root.hasVocab "applicator" = true →
      (jget o "if").isSome = true →
      s7.if_.isSome = true ∧ s7.then_.isSome = (jget o "then").isSome ∧
      s7.else_.isSome = (jget o "else").isSome) := by
  unfold lowerDraft7 at h
  split at h
  next hver =>
    dsimp only at h
    injection h with h1 h2
    subst h1
    refine ⟨?_, ?_, ?_, ?_, ?_, ?_, ?_, ?_⟩
    · exact ((lowerContent_pres c _ o).1).trans (lowerIfThenElse_upd_pres _ _ o loc root _).1
    · exact ((lowerContent_pres c _ o).2.2.1).trans (lowerIfThenElse_upd_pres _ _ o loc root _).2.1
    · exact ((lowerContent_pres c _ o).2.2.2.1).trans (lowerIfThenElse_upd_pres _ _ o loc root _).2.2.1
    · exact ((lowerContent_pres c _ o).2.2.2.2.1).trans (lowerIfThenElse_upd_pres _ _ o loc root _).2.2.2.1
    · exact ((lowerContent_pres c _ o).2.2.2.2.2.1).trans (lowerIfThenElse_upd_pres _ _ o loc root _).2.2.2.2.1
    · exact ((lowerContent_pres c _ o).2.2.2.2.2.2).trans (lowerIfThenElse_upd_pres _ _ o loc root _).2.2.2.2.2
    · intro hif
      obtain ⟨ha, hb⟩ := lowerIfThenElse_upd_condA st q loc root s hif
      have hcc := (lowerContent_pres c ((lowerIfThenElse st q o loc root).1 s) o).2.1
      constructor
      · exact (congrArg (fun p => p.2.1) hcc).trans ha
      · exact (congrArg (fun p => p.2.2) hcc).trans hb
    · intro _ hva hifsome
      obtain ⟨ha, hb, hc2⟩ := lowerIfThenElse_upd_condB st q loc root s hva hifsome
      have hcc := (lowerContent_pres c ((lowerIfThenElse st q o loc root).1 s) o).2.1
      refine ⟨?_, ?_, ?_⟩
      · exact (congrArg (fun p => Option.isSome p.1) hcc).trans ha
      · exact (congrArg (fun p => Option.isSome p.2.1) hcc).trans hb
      · exact (congrArg (fun p => Option.isSome p.2.2) hcc).trans hc2
  next hver =>
    injection h with h1 h2
    subst h1
    refine ⟨rfl, rfl, rfl, rfl, rfl, rfl, fun _ => ⟨rfl, rfl⟩, ?_⟩
    intro h7
    exact absurd h7 hver

theorem lowerDependentSchemas_upd_pres (st : Schemas) (q : List String)
    (o : List (String × Value)) (loc : String) (root : Root) (s : Schema) :
    numFields ((lowerDependentSchemas st q o loc root).1 s) = numFields s ∧
    condFields ((lowerDependentSchemas st q o loc root).1 s) = condFields s ∧
    itemFields ((lowerDependentSchemas st q o loc root).1 s) = itemFields s ∧
    items2020Fields ((lowerDependentSchemas st q o loc root).1 s) = items2020Fields s ∧
    mcFields ((lowerDependentSchemas st q o loc root).1 s) = mcFields s ∧
    ((lowerDependentSchemas st q o loc root).1 s).contains = s.contains ∧
    ((lowerDependentSchemas st q o loc root).1 s).format = s.format := by
  unfold lowerDependentSchemas
  repeat' split
  all_goals exact ⟨rfl, rfl, rfl, rfl, rfl, rfl, rfl⟩

theorem lowerUnevaluated_upd_pres (st : Schemas) (q : List String)
    (o : List (String × Value)) (loc : String) (root : Root) (s : Schema) :
    numFields ((lowerUnevaluated st q o loc root).1 s) = numFields s ∧
    condFields ((lowerUnevaluated st q o loc root).1 s) = condFields s ∧
    itemFields ((lowerUnevaluated st q o loc root).1 s) = itemFields s ∧
    items2020Fields ((lowerUnevaluated st q o loc root).1 s) = items2020Fields s ∧
    mcFields ((lowerUnevaluated st q o loc root).1 s) = mcFields s ∧
    ((lowerUnevaluated st q o loc root).1 s).contains = s.contains ∧
    ((lowerUnevaluated st q o loc root).1 s).format = s.format := by
  unfold lowerUnevaluated
  repeat' split
  all_goals exact ⟨rfl, rfl, rfl, rfl, rfl, rfl, rfl⟩

theorem lowerPrefixItems_upd_pres (st : Schemas) (q : List String)
    (o : List (String × Value)) (loc : String) (root : Root) (s : Schema) :
    numFields ((lowerPrefixItems st q o loc root).1 s) = numFields s ∧
    condFields ((lowerPrefixItems st q o loc root).1 s) = condFields s ∧
    itemFields ((lowerPrefixItems st q o loc root).1 s) = itemFields s ∧
    mcFields ((lowerPrefixItems st q o loc root).1 s) = mcFields s ∧
    ((lowerPrefixItems st q o loc root).1 s).contains = s.contains ∧
    ((lowerPrefixItems st q o loc root).1 s).format = s.format := by
  unfold lowerPrefixItems
  repeat' split
  all_goals exact ⟨rfl, rfl, rfl, rfl, rfl, rfl⟩

theorem lowerPrefixItems_upd_char (st : Schemas) (q : List String)
    (o : List (String × Value)) (loc : String) (root : Root) (s : Schema)
    (hva : root.hasVocab "applicator" = true) :
    ((lowerPrefixItems st q o loc root).1 s).prefixItems =
      (enquueArr st q o loc "prefixItems").1 ∧
    ((lowerPrefixItems st q o loc root).1 s).items2020 =
      (enqueueProp (enquueArr st q o loc "prefixItems").2.1
        (enquueArr st q o loc "prefixItems").2.2 o loc "items").1 := by
  unfold lowerPrefixItems
  rw [if_pos hva]
  exact ⟨rfl, rfl⟩

theorem lower2019Validation_pres (root : Root) (s : Schema)
    (o : List (String × Value)) :
    numFields (lower2019Validation root s o) = numFields s ∧
    condFields (lower2019Validation root s o) = condFields s ∧
    itemFields (lower2019Validation root s o) = itemFields s ∧
    items2020Fields (lower2019Validation root s o) = items2020Fields s ∧
    (lower2019Validation root s o).contains = s.contains ∧
    (lower2019Validation root s o).format = s.format := by
  unfold lower2019Validation
  repeat' split
  all_goals exact ⟨rfl, rfl, rfl, rfl, rfl, rfl⟩

theorem lower2019Validation_mc (root : Root) (s : Schema)
    (o : List (String × Value)) (hc : s.contains = none) :
    mcFields (lower2019Validation root s o) = mcFields s := by
  unfold lower2019Validation
  rw [hc]
  simp only [Option.isSome_none, Bool.false_eq_true, if_false]
  repeat' split
  all_goals rfl

theorem lowerDraft2019_pres {st st9 : Schemas} {s s9 : Schema}
    {o : List (String × Value)} {loc : String} {root : Root}
    {q q9 : List String}
    (h : lowerDraft2019 st s o loc root q = .ok (s9, st9, q9)) :
    numFields s9 = numFields s ∧ condFields s9 = condFields s ∧
    itemFields s9 = itemFields s ∧ items2020Fields s9 = items2020Fields s ∧
    s9.contains = s.contains ∧ s9.format = s.format ∧
    (s.contains = none → mcFields s9 = mcFields s) := by
  unfold lowerDraft2019 at h
  split at h
  · obtain ⟨r, hA, hf⟩ := ebind_ok h
    obtain ⟨s1, st1, q1⟩ := r
    have hcore : numFields s1 = numFields s ∧ condFields s1 = condFields s ∧
        itemFields s1 = itemFields s ∧ items2020Fields s1 = items2020Fields s ∧
        s1.contains = s.contains ∧ s1.format = s.format ∧
        mcFields s1 = mcFields s := by
      split at hA
      · obtain ⟨r2, hRef, hcont⟩ := ebind_ok hA
        obtain ⟨x2, st2, q2⟩ := r2
        dsimp only at hcont
        injection hcont with h1
        injection h1 with h1 h2
        subst h1
        split
        all_goals exact ⟨rfl, rfl, rfl, rfl, rfl, rfl, rfl⟩
      · injection hA with h1
        injection h1 with h1 h2
        subst h1
        exact ⟨rfl, rfl, rfl, rfl, rfl, rfl, rfl⟩
    dsimp only at hf
    injection hf with h1
    injection h1 with h1 h2
    subst h1
    obtain ⟨v1, v2, v3, v4, v5, v6⟩ := lower2019Validation_pres root s1 o
    obtain ⟨d1, d2, d3, d4, d5, d6, d7⟩ :=
      lowerDependentSchemas_upd_pres st1 q1 o loc root (lower2019Validation root s1 o)
    obtain ⟨u1, u2, u3, u4, u5, u6, u7⟩ :=
      lowerUnevaluated_upd_pres (lowerDependentSchemas st1 q1 o loc root).2.1
        (lowerDependentSchemas st1 q1 o loc root).2.2 o loc root
        ((lowerDependentSchemas st1 q1 o loc root).1 (lower2019Validation root s1 o))
    refine ⟨?_, ?_, ?_, ?_, ?_, ?_, ?_⟩
    · exact ((u1.trans d1).trans v1).trans hcore.1
    · exact ((u2.trans d2).trans v2).trans hcore.2.1
    · exact ((u3.trans d3).trans v3).trans hcore.2.2.1
    · exact ((u4.trans d4).trans v4).trans hcore.2.2.2.1
    · exact ((u6.trans d6).trans v5).trans hcore.2.2.2.2.1
    · exact ((u7.trans d7).trans v6).trans hcore.2.2.2.2.2.1
    · intro hc
      have hc1 : s1.contains = none := hcore.2.2.2.2.1.trans hc
      exact ((u5.trans d5).trans (lower2019Validation_mc root s1 o hc1)).trans
        hcore.2.2.2.2.2.2
  · injection h with h1
    injection h1 with h1 h2
    subst h1
    exact ⟨rfl, rfl, rfl, rfl, rfl, rfl, fun _ => rfl⟩

theorem lowerDraft2020_pres {st st0 : Schemas} {s s0 : Schema}
    {o : List (String × Value)} {loc : String} {root : Root}
    {q q0 : List String}
    (h : lowerDraft2020 st s o loc root q = .ok (s0, st0, q0)) :
    numFields s0 = numFields s ∧ condFields s0 = condFields s ∧
    itemFields s0 = itemFields s ∧ mcFields s0 = mcFields s ∧
    s0.contains = s.contains ∧ s0.format = s.format ∧
    (¬ 2020 ≤ root.draftVersion → items2020Fields s0 = items2020Fields s) ∧
    (2020 ≤ root.draftVersion → root.hasVocab "applicator" = true →
      ∃ st1 q1,
        s0.prefixItems = (enquueArr st1 q1 o loc "prefixItems").1 ∧
        s0.items2020 = (enqueueProp (enquueArr st1 q1 o loc "prefixItems").2.1
          (enquueArr st1 q1 o loc "prefixItems").2.2 o loc "items").1) := by
  unfold lowerDraft2020 at h
  split at h
  next hver =>
    obtain ⟨r, hA, hf⟩ := ebind_ok h
    obtain ⟨s1, st1, q1⟩ := r
    have hcore : numFields s1 = numFields s ∧ condFields s1 = condFields s ∧
        itemFields s1 = itemFields s ∧ mcFields s1 = mcFields s ∧
        s1.contains = s.contains ∧ s1.format = s.format := by
      split at hA
      · obtain ⟨r2, hRef, hcont⟩ := ebind_ok hA
        obtain ⟨x2, st2, q2⟩ := r2
        dsimp only at hcont
        injection hcont with h1
        injection h1 with h1 h2
        subst h1
        split
        all_goals exact ⟨rfl, rfl, rfl, rfl, rfl, rfl⟩
      · injection hA with h1
        injection h1 with h1 h2
        subst h1
        exact ⟨rfl, rfl, rfl, rfl, rfl, rfl⟩
    dsimp only at hf
    injection hf with h1
    injection h1 with h1 h2
    subst h1
    obtain ⟨p1, p2, p3, p4, p5, p6⟩ := lowerPrefixItems_upd_pres st1 q1 o loc root s1
    refine ⟨p1.trans hcore.1, p2.trans hcore.2.1, p3.trans hcore.2.2.1,
      p4.trans hcore.2.2.2.1, p5.trans hcore.2.2.2.2.1, p6.trans hcore.2.2.2.2.2,
      ?_, ?_⟩
    · intro hnver
      exact absurd hver hnver
    · intro _ hva
      obtain ⟨c1, c2⟩ := lowerPrefixItems_upd_char st1 q1 o loc root s1 hva
      exact ⟨st1, q1, c1, c2⟩
  next hver =>
    injection h with h1
    injection h1 with h1 h2
    subst h1
    refine ⟨rfl, rfl, rfl, rfl, rfl, rfl, fun _ => rfl, ?_⟩
    intro h20
    exact absurd h20 hver

/-! ### Claim C4: numeric bounds -/

/-- On the non-collapse path the numeric-bound fields of the final record are
exactly those computed by `lowerNumBounds`, starting from empty exclusive
slots. -/
theorem compileOne_numFields {c : Compiler} {st : Schemas}
    {o : List (String × Value)} {loc : String} {root : Root} {q : List String}
    {s' : Schema} {st' : Schemas} {q' : List String}
    (href : jget o "$ref" = none)
    (hvv : root.hasVocab "validation" = true)
    (h : compileOne c st (Value.obj o) loc root q = .ok (s', st', q')) :
    ∃ sA, numFields s' = numFields (lowerNumBounds (lowerTypesEnum sA o) o) ∧
      sA.exclusiveMaximum = none ∧ sA.exclusiveMinimum = none := by
  rcases compileOne_obj_decomp c st o loc root q s' st' q' h with
    ⟨_, _, ⟨r, hrstr⟩, _⟩ | ⟨s1, st1, q1, sA, stA, qA, sV, s6, st6, q6, s7, st7,
      q7, s9, st9, q9, hs1c, hApp, hVal, h6, h7, h19, h20⟩
  · rw [href] at hrstr
    cases hrstr
  · refine ⟨sA, ?_, ?_, ?_⟩
    · have n20 := (lowerDraft2020_pres h20).1
      have n19 := (lowerDraft2019_pres h19).1
      have n7 := (lowerDraft7_pres h7).1
      have n6 := (lowerDraft6_pres h6).1
      have nf := (lowerFormat_pres c root sV o).1
      have nv := (lowerValidation_pres hVal).2.2.2.2.2.2.1 hvv
      rw [n20, n19, n7, n6, nf, nv]
    · have na := (lowerApplicator_pres hApp).1
      have h1 : sA.exclusiveMaximum = s1.exclusiveMaximum :=
        congrArg (fun p => p.2.1) na
      rw [h1, hs1c]
      rfl
    · have na := (lowerApplicator_pres hApp).1
      have h1 : sA.exclusiveMinimum = s1.exclusiveMinimum :=
        congrArg (fun p => p.2.2.2) na
      rw [h1, hs1c]
      rfl

/-- Claim C4: under draft 4, a numeric `maximum` together with the boolean
keyword `exclusiveMaximum = true` lowers to `maximum = none` and
`exclusive_maximum` holding the numeric value of `maximum`; the analogous rule
holds for `minimum`/`exclusiveMinimum`; and under draft ≥ 6, numeric
`exclusiveMaximum`/`exclusiveMinimum` are lowered as independent numeric
bounds, with `maximum`/`minimum` loaded independently. -/
theorem C4_numeric_bounds :
    (∀ (c : Compiler) (st : Schemas) (o : List (String × Value)) (loc : String)
       (root : Root) (q : List String) (s' : Schema) (st' : Schemas)
       (q' : List String) (m : JNum),
       root.draftVersion = 4 →
       jget o "$ref" = none →
       jget o "maximum" = some (Value.num m) →
       jget o "exclusiveMaximum" = some (Value.bool true) →
       compileOne c st (Value.obj o) loc root q = .ok (s', st', q') →
       s'.maximum = none ∧ s'.exclusiveMaximum = some m) ∧
    (∀ (c : Compiler) (st : Schemas) (o : List (String × Value)) (loc : String)
       (root : Root) (q : List String) (s' : Schema) (st' : Schemas)
       (q' : List String) (m : JNum),
       root.draftVersion = 4 →
       jget o "$ref" = none →
       jget o "minimum" = some (Value.num m) →
       jget o "exclusiveMinimum" = some (Value.bool true) →
       compileOne c st (Value.obj o) loc root q = .ok (s', st', q') →
       s'.minimum = none ∧ s'.exclusiveMinimum = some m) ∧
    (∀ (c : Compiler) (st : Schemas) (o : List (String × Value)) (loc : String)
       (root : Root) (q : List String) (s' : Schema) (st' : Schemas)
       (q' : List String) (e : JNum),
       6 ≤ root.draftVersion →
       root.hasVocab "validation" = true →
       jget o "$ref" = none →
       jget o "exclusiveMaximum" = some (Value.num e) →
       compileOne c st (Value.obj o) loc root q = .ok (s', st', q') →
       s'.exclusiveMaximum = some e ∧ s'.maximum = loadNum o "maximum") ∧
    (∀ (c : Compiler) (st : Schemas) (o : List (String × Value)) (loc : String)
       (root : Root) (q : List String) (s' : Schema) (st' : Schemas)
       (q' : List String) (e : JNum),
       6 ≤ root.draftVersion →
       root.hasVocab "validation" = true →
       jget o "$ref" = none →
       jget o "exclusiveMinimum" = some (Value.num e) →
       compileOne c st (Value.obj o) loc root q = .ok (s', st', q') →
       s'.exclusiveMinimum = some e ∧ s'.minimum = loadNum o "minimum") := by
  refine ⟨?_, ?_, ?_, ?_⟩
  · intro c st o loc root q s' st' q' m hv href hmax hexb h
    have hvv : root.hasVocab "validation" = true :=
      hasVocab_pre2019 (by rw [hv]; omega) "validation"
    obtain ⟨sA, hnum, _, _⟩ := compileOne_numFields href hvv h
    obtain ⟨n1, n2, _, _⟩ := lowerNumBounds_char (lowerTypesEnum sA o) o
    constructor
    · have h1 : s'.maximum =
          (lowerNumBounds (lowerTypesEnum sA o) o).maximum :=
        congrArg (fun p => p.1) hnum
      rw [h1, n1, hexb]
      rfl
    · have h1 : s'.exclusiveMaximum =
          (lowerNumBounds (lowerTypesEnum sA o) o).exclusiveMaximum :=
        congrArg (fun p => p.2.1) hnum
      rw [h1, n2, hexb]
      simp [loadNum, hmax]
  · intro c st o loc root q s' st' q' m hv href hmin hexb h
    have hvv : root.hasVocab "validation" = true :=
      hasVocab_pre2019 (by rw [hv]; omega) "validation"
    obtain ⟨sA, hnum, _, _⟩ := compileOne_numFields href hvv h
    obtain ⟨_, _, n3, n4⟩ := lowerNumBounds_char (lowerTypesEnum sA o) o
    constructor
    · have h1 : s'.minimum =
          (lowerNumBounds (lowerTypesEnum sA o) o).minimum :=
        congrArg (fun p => p.2.2.1) hnum
      rw [h1, n3, hexb]
      rfl
    · have h1 : s'.exclusiveMinimum =
          (lowerNumBounds (lowerTypesEnum sA o) o).exclusiveMinimum :=
        congrArg (fun p => p.2.2.2) hnum
      rw [h1, n4, hexb]
      simp [loadNum, hmin]
  · intro c st o loc root q s' st' q' e _ hvv href hexb h
    obtain ⟨sA, hnum, _, _⟩ := compileOne_numFields href hvv h
    obtain ⟨n1, n2, _, _⟩ := lowerNumBounds_char (lowerTypesEnum sA o) o
    constructor
    · have h1 : s'.exclusiveMaximum =
          (lowerNumBounds (lowerTypesEnum sA o) o).exclusiveMaximum :=
        congrArg (fun p => p.2.1) hnum
      rw [h1, n2, hexb]
      simp [loadNum, hexb]
    · have h1 : s'.maximum =
          (lowerNumBounds (lowerTypesEnum sA o) o).maximum :=
        congrArg (fun p => p.1) hnum
      rw [h1, n1, hexb]
  · intro c st o loc root q s' st' q' e _ hvv href hexb h
    obtain ⟨sA, hnum, _, _⟩ := compileOne_numFields href hvv h
    obtain ⟨_, _, n3, n4⟩ := lowerNumBounds_char (lowerTypesEnum sA o) o
    constructor
    · have h1 : s'.exclusiveMinimum =
          (lowerNumBounds (lowerTypesEnum sA o) o).exclusiveMinimum :=
        congrArg (fun p => p.2.2.2) hnum
      rw [h1, n4, hexb]
      simp [loadNum, hexb]
    · have h1 : s'.minimum =
          (lowerNumBounds (lowerTypesEnum sA o) o).minimum :=
        congrArg (fun p => p.2.2.1) hnum
      rw [h1, n3, hexb]

/-- A draft-7 variant of the boolean-document root. -/
def wRoot7 : Root := { wRootBool with draftVersion := 7 }

/-- The draft-4 object used by the C4 witness: numeric bounds with boolean
exclusivity keywords. -/
def c4obj : List (String × Value) :=
  [("maximum", Value.num (JNum.ofNat 5)), ("exclusiveMaximum", Value.bool true),
   ("minimum", Value.num (JNum.ofNat 2)), ("exclusiveMinimum", Value.bool true)]

/-- The C4 draft-4 witness run. -/
def c4run : Except CompileError (Schema × Schemas × List String) :=
  compileOne wCompilerBool {} (Value.obj c4obj) "u#" wRootBool []

/-- The draft-7 object used by the C4 witness: numeric exclusive bounds next
to a plain `maximum`. -/
def c4obj2 : List (String × Value) :=
  [("exclusiveMaximum", Value.num (JNum.ofNat 7)),
   ("exclusiveMinimum", Value.num (JNum.ofNat 1)),
   ("maximum", Value.num (JNum.ofNat 9))]

/-- The C4 draft-7 witness run. -/
def c4run2 : Except CompileError (Schema × Schemas × List String) :=
  compileOne wCompilerBool {} (Value.obj c4obj2) "u#" wRoot7 []

/-- Witness for C4: under draft 4 the boolean `exclusiveMaximum`/
`exclusiveMinimum` move the numeric bounds into the exclusive slots; under
draft 7 numeric exclusives are stored directly and `maximum` is loaded
independently. -/
theorem C4_witness :
    ((okPart1 c4run).maximum = none ∧
      (okPart1 c4run).exclusiveMaximum = some (JNum.ofNat 5)) ∧
    ((okPart1 c4run).minimum = none ∧
      (okPart1 c4run).exclusiveMinimum = some (JNum.ofNat 2)) ∧
    ((okPart1 c4run2).exclusiveMaximum = some (JNum.ofNat 7) ∧
      (okPart1 c4run2).maximum = loadNum c4obj2 "maximum") ∧
    ((okPart1 c4run2).exclusiveMinimum = some (JNum.ofNat 1) ∧
      (okPart1 c4run2).minimum = loadNum c4obj2 "minimum") :=
  ⟨C4_numeric_bounds.1 wCompilerBool {} c4obj "u#" wRootBool []
      (okPart1 c4run) (okPart2 c4run) (okPart3 c4run) (JNum.ofNat 5)
      rfl rfl rfl rfl rfl,
   C4_numeric_bounds.2.1 wCompilerBool {} c4obj "u#" wRootBool []
      (okPart1 c4run) (okPart2 c4run) (okPart3 c4run) (JNum.ofNat 2)
      rfl rfl rfl rfl rfl,
   C4_numeric_bounds.2.2.1 wCompilerBool {} c4obj2 "u#" wRoot7 []
      (okPart1 c4run2) (okPart2 c4run2) (okPart3 c4run2) (JNum.ofNat 7)
      (by decide) rfl rfl rfl rfl,
   C4_numeric_bounds.2.2.2 wCompilerBool {} c4obj2 "u#" wRoot7 []
      (okPart1 c4run2) (okPart2 c4run2) (okPart3 c4run2) (JNum.ofNat 1)
      (by decide) rfl rfl rfl rfl⟩

/-! ### Claim C5: format lookup -/

/-- The final record's `format` field either comes from the `$ref` collapse
(and is then unset) or is exactly what `lowerFormat` computes from an
unset field. -/
theorem compileOne_format {c : Compiler} {st : Schemas}
    {o : List (String × Value)} {loc : String} {root : Root} {q : List String}
    {s' : Schema} {st' : Schemas} {q' : List String}
    (h : compileOne c st (Value.obj o) loc root q = .ok (s', st', q')) :
    (s'.format = none ∧ ∃ r, jget o "$ref" = some (Value.str r)) ∨
    (∃ sV, s'.format = (lowerFormat c root sV o).format ∧ sV.format = none) := by
  rcases compileOne_obj_decomp c st o loc root q s' st' q' h with
    ⟨_, _, hr, hcc⟩ | ⟨s1, st1, q1, sA, stA, qA, sV, s6, st6, q6, s7, st7,
      q7, s9, st9, q9, hs1c, hApp, hVal, h6, h7, h19, h20⟩
  · refine Or.inl ⟨?_, hr⟩
    rw [hcc]
    rfl
  · refine Or.inr ⟨sV, ?_, ?_⟩
    · have f20 := (lowerDraft2020_pres h20).2.2.2.2.2.1
      have f19 := (lowerDraft2019_pres h19).2.2.2.2.2.1
      have f7 := (lowerDraft7_pres h7).2.2.2.2.2.1
      have f6 := (lowerDraft6_pres h6).2.2.2.2.2.1
      rw [f20, f19, f7, f6]
    · have fv := (lowerValidation_pres hVal).2.2.2.2.2.1
      have fa := (lowerApplicator_pres hApp).2.2.2.2.2
      rw [fv, fa, hs1c]
      rfl

/-- Claim C5: a `format` value naming a format in neither the user table nor
the builtin table never causes an error (compilation of the object succeeds)
and leaves the record's `format` field unset; when the name is found and the
assertion gate is on, the user table takes precedence over the builtin
table. -/
theorem C5_format_lookup :
    (∀ name : String,
      isOkE (compileOne wCompilerBool {}
        (Value.obj [("format", Value.str name)]) "u#" wRootBool []) = true) ∧
    (∀ (c : Compiler) (st : Schemas) (o : List (String × Value)) (loc : String)
       (root : Root) (q : List String) (s' : Schema) (st' : Schemas)
       (q' : List String) (name : String),
       jget o "format" = some (Value.str name) →
       assocFind c.formats name = none →
       assocFind FORMATS name = none →
       compileOne c st (Value.obj o) loc root q = .ok (s', st', q') →
       s'.format = none) ∧
    (∀ (c : Compiler) (st : Schemas) (o : List (String × Value)) (loc : String)
       (root : Root) (q : List String) (s' : Schema) (st' : Schemas)
       (q' : List String) (name : String) (f : Nat),
       c.assertFormat = true →
       jget o "$ref" = none →
       jget o "format" = some (Value.str name) →
       assocFind c.formats name = some f →
       compileOne c st (Value.obj o) loc root q = .ok (s', st', q') →
       s'.format = some (name, f)) := by
  refine ⟨fun name => rfl, ?_, ?_⟩
  · intro c st o loc root q s' st' q' name hname hu hb h
    rcases compileOne_format h with ⟨hf, _⟩ | ⟨sV, hf, hnone⟩
    · exact hf
    · rw [hf, lowerFormat_char c root sV hname]
      repeat' split
      all_goals simp_all [Option.orElse]
  · intro c st o loc root q s' st' q' name f hgate href hname hu h
    rcases compileOne_format h with ⟨_, r, hr⟩ | ⟨sV, hf, _⟩
    · rw [href] at hr
      cases hr
    · rw [hf, lowerFormat_char c root sV hname, hgate]
      simp [hu, Option.orElse]

/-- A compiler with format assertion on and a user-registered `date` format
shadowing the builtin one. -/
def wCompilerFmt : Compiler :=
  { roots := [("u", wRootBool)], assertFormat := true,
    formats := [("date", 999)] }

/-- The C5 unknown-format witness run. -/
def c5run : Except CompileError (Schema × Schemas × List String) :=
  compileOne wCompilerBool {} (Value.obj [("format", Value.str "zzz")])
    "u#" wRootBool []

/-- The C5 user-precedence witness run. -/
def c5run2 : Except CompileError (Schema × Schemas × List String) :=
  compileOne wCompilerFmt {} (Value.obj [("format", Value.str "date")])
    "u#" wRootBool []

/-- Witness for C5: the unknown name `zzz` compiles with `format` unset, and
the user-registered `date` validator (token 999) wins over the builtin one
(token 100). -/
theorem C5_witness :
    isOkE (compileOne wCompilerBool {}
      (Value.obj [("format", Value.str "zzz")]) "u#" wRootBool []) = true ∧
    (okPart1 c5run).format = none ∧
    (okPart1 c5run2).format = some ("date", 999) :=
  ⟨C5_format_lookup.1 "zzz",
   C5_format_lookup.2.1 wCompilerBool {} [("format", Value.str "zzz")] "u#"
     wRootBool [] (okPart1 c5run) (okPart2 c5run) (okPart3 c5run) "zzz"
     rfl rfl rfl rfl,
   C5_format_lookup.2.2 wCompilerFmt {} [("format", Value.str "date")] "u#"
     wRootBool [] (okPart1 c5run2) (okPart2 c5run2) (okPart3 c5run2) "date" 999
     rfl rfl rfl rfl rfl⟩

/-! ### Claim C7: items bifurcation -/

/-- On the non-collapse path the final record's pre-2020 item fields are
exactly what `lowerItems` computes on a record with both item fields unset. -/
theorem compileOne_itemFields {c : Compiler} {st : Schemas}
    {o : List (String × Value)} {loc : String} {root : Root} {q : List String}
    {s' : Schema} {st' : Schemas} {q' : List String}
    (hva : root.hasVocab "applicator" = true)
    (href : root.draftVersion < 2019 → jget o "$ref" = none)
    (h : compileOne c st (Value.obj o) loc root q = .ok (s', st', q')) :
    ∃ st2 q2 s2,
      itemFields s' = itemFields ((lowerItems st2 o loc root q2).1 s2) ∧
      s2.items = none ∧ s2.additionalItems = none := by
  rcases compileOne_obj_decomp c st o loc root q s' st' q' h with
    ⟨_, hlt, ⟨r, hrstr⟩, _⟩ | ⟨s1, st1, q1, sA, stA, qA, sV, s6, st6, q6, s7,
      st7, q7, s9, st9, q9, hs1c, hApp, hVal, h6, h7, h19, h20⟩
  · rw [href hlt] at hrstr
    cases hrstr
  · obtain ⟨st2, q2, s2, hA, hA2, hA1⟩ := lowerApplicator_items hva hApp
    refine ⟨st2, q2, s2, ?_, ?_, ?_⟩
    · have i20 := (lowerDraft2020_pres h20).2.2.1
      have i19 := (lowerDraft2019_pres h19).2.2.1
      have i7 := (lowerDraft7_pres h7).2.1
      have i6 := (lowerDraft6_pres h6).2.2.1
      have iF := (lowerFormat_pres c root sV o).2.2.1
      have iV := (lowerValidation_pres hVal).2.1
      rw [i20, i19, i7, i6, iF, iV, hA]
    · rw [hA1, hs1c]
      rfl
    · rw [hA2, hs1c]
      rfl

/-- Claim C7: under draft < 2020, an array-valued `items` lowers to a
positional sequence of handles with `additional_items` read from
`additionalItems` (boolean kept as a boolean, any other value compiled to a
handle), while a non-array `items` lowers to a single uniform handle; under
draft ≥ 2020, `prefixItems` holds the positional sequence, `items` feeds the
`items2020` field, and the pre-2020 `items` field stays unset. -/
theorem C7_items_bifurcation :
    (∀ (c : Compiler) (st : Schemas) (o : List (String × Value)) (loc : String)
       (root : Root) (q : List String) (s' : Schema) (st' : Schemas)
       (q' : List String) (xs : List Value),
       root.draftVersion < 2020 →
       root.hasVocab "applicator" = true →
       jget o "$ref" = none →
       jget o "items" = some (Value.arr xs) →
       compileOne c st (Value.obj o) loc root q = .ok (s', st', q') →
       (∃ hs, s'.items = some (Items.schemaRefs hs) ∧ hs.length = xs.length) ∧
       (∀ b, jget o "additionalItems" = some (Value.bool b) →
         s'.additionalItems = some (Additional.bool b)) ∧
       (jget o "additionalItems" = none → s'.additionalItems = none) ∧
       ((jget o "additionalItems").isSome = true →
         (∀ b, jget o "additionalItems" ≠ some (Value.bool b)) →
         ∃ h, s'.additionalItems = some (Additional.schemaRef h))) ∧
    (∀ (c : Compiler) (st : Schemas) (o : List (String × Value)) (loc : String)
       (root : Root) (q : List String) (s' : Schema) (st' : Schemas)
       (q' : List String),
       root.draftVersion < 2020 →
       root.hasVocab "applicator" = true →
       jget o "$ref" = none →
       (jget o "items").isSome = true →
       (∀ xs, jget o "items" ≠ some (Value.arr xs)) →
       compileOne c st (Value.obj o) loc root q = .ok (s', st', q') →
       (∃ h, s'.items = some (Items.schemaRef h)) ∧
       s'.additionalItems = none) ∧
    (∀ (c : Compiler) (st : Schemas) (o : List (String × Value)) (loc : String)
       (root : Root) (q : List String) (s' : Schema) (st' : Schemas)
       (q' : List String),
       2020 ≤ root.draftVersion →
       root.hasVocab "applicator" = true →
       compileOne c st (Value.obj o) loc root q = .ok (s', st', q') →
       (∀ xs, jget o "prefixItems" = some (Value.arr xs) →
         s'.prefixItems.length = xs.length) ∧
       (s'.items2020).isSome = (jget o "items").isSome ∧
       s'.items = none) := by
  refine ⟨?_, ?_, ?_⟩
  · intro c st o loc root q s' st' q' xs hv hva href hitems h
    obtain ⟨st2, q2, s2, hIF, _, _⟩ :=
      compileOne_itemFields hva (fun _ => href) h
    have hi : s'.items = ((lowerItems st2 o loc root q2).1 s2).items :=
      congrArg (fun p => p.1) hIF
    have hai : s'.additionalItems =
        ((lowerItems st2 o loc root q2).1 s2).additionalItems :=
      congrArg (fun p => p.2) hIF
    obtain ⟨harr, hab, han, has⟩ := lowerItems_upd_arr st2 loc q2 s2 hv hitems
    refine ⟨?_, ?_, ?_, ?_⟩
    · rw [hi]
      exact harr
    · intro b hb
      rw [hai]
      exact hab b hb
    · intro hn
      rw [hai]
      exact han hn
    · intro hsome hnb
      rw [hai]
      exact has hsome hnb
  · intro c st o loc root q s' st' q' hv hva href hsome hnarr h
    obtain ⟨st2, q2, s2, hIF, _, ha2⟩ :=
      compileOne_itemFields hva (fun _ => href) h
    have hi : s'.items = ((lowerItems st2 o loc root q2).1 s2).items :=
      congrArg (fun p => p.1) hIF
    have hai : s'.additionalItems =
        ((lowerItems st2 o loc root q2).1 s2).additionalItems :=
      congrArg (fun p => p.2) hIF
    obtain ⟨hone, hkeep⟩ := lowerItems_upd_nonarr st2 loc q2 s2 hv hsome hnarr
    constructor
    · rw [hi]
      exact hone
    · rw [hai, hkeep, ha2]
  · intro c st o loc root q s' st' q' hv hva h
    have hrefc : root.draftVersion < 2019 → jget o "$ref" = none :=
      fun hlt => absurd hv (by omega)
    obtain ⟨st2, q2, s2, hIF, hs2i, _⟩ := compileOne_itemFields hva hrefc h
    have hi : s'.items = ((lowerItems st2 o loc root q2).1 s2).items :=
      congrArg (fun p => p.1) hIF
    have hupd : (lowerItems st2 o loc root q2).1 s2 = s2 :=
      lowerItems_upd_2020 st2 o loc q2 s2 (by omega)
    rcases compileOne_obj_decomp c st o loc root q s' st' q' h with
      ⟨_, hlt, _, _⟩ | ⟨s1, st1, q1, sA, stA, qA, sV, s6, st6, q6, s7, st7,
        q7, s9, st9, q9, hs1c, hApp, hVal, h6, h7, h19, h20⟩
    · omega
    · obtain ⟨stp, qp, hpre, h2020⟩ :=
        (lowerDraft2020_pres h20).2.2.2.2.2.2.2 hv hva
      refine ⟨?_, ?_, ?_⟩
      · intro xs hp
        rw [hpre]
        exact enquueArr_fst_length stp qp loc hp
      · rw [h2020]
        exact enqueueProp_fst_isSome _ _ o loc "items"
      · rw [hi, hupd, hs2i]

/-- A draft-2020 variant of the boolean-document root, with the standard
vocabularies listed. -/
def wRoot2020 : Root :=
  { wRootBool with
    draftVersion := 2020
    vocabsList := ["core", "applicator", "validation"] }

/-- The C7 array-items object. -/
def c7obj : List (String × Value) :=
  [("items", Value.arr [Value.bool true, Value.bool true]),
   ("additionalItems", Value.bool false)]

/-- The C7 array-items run (draft 4). -/
def c7run : Except CompileError (Schema × Schemas × List String) :=
  compileOne wCompilerBool {} (Value.obj c7obj) "u#" wRootBool []

/-- The C7 single-schema-items object. -/
def c7objB : List (String × Value) := [("items", Value.bool true)]

/-- The C7 single-schema-items run (draft 4). -/
def c7runB : Except CompileError (Schema × Schemas × List String) :=
  compileOne wCompilerBool {} (Value.obj c7objB) "u#" wRootBool []

/-- The C7 2020 object with `prefixItems` and `items`. -/
def c7objC : List (String × Value) :=
  [("prefixItems", Value.arr [Value.bool true, Value.bool true]),
   ("items", Value.bool true)]

/-- The C7 2020 run. -/
def c7runC : Except CompileError (Schema × Schemas × List String) :=
  compileOne wCompilerBool {} (Value.obj c7objC) "u#" wRoot2020 []

/-- Witness for C7: under draft 4, `{"items": [true, true],
"additionalItems": false}` lowers to a two-handle positional sequence with the
boolean kept, `{"items": true}` lowers to a single uniform handle, and under
draft 2020 `{"prefixItems": [true, true], "items": true}` fills `prefixItems`
and `items2020` while `items` stays unset. -/
theorem C7_witness :
    ((∃ hs, (okPart1 c7run).items = some (Items.schemaRefs hs) ∧
        hs.length = [Value.bool true, Value.bool true].length) ∧
      (okPart1 c7run).additionalItems = some (Additional.bool false)) ∧
    ((∃ h, (okPart1 c7runB).items = some (Items.schemaRef h)) ∧
      (okPart1 c7runB).additionalItems = none) ∧
    ((okPart1 c7runC).prefixItems.length =
        [Value.bool true, Value.bool true].length ∧
      (okPart1 c7runC).items2020.isSome = (jget c7objC "items").isSome ∧
      (okPart1 c7runC).items = none) := by
  have a := C7_items_bifurcation.1 wCompilerBool {} c7obj "u#" wRootBool []
    (okPart1 c7run) (okPart2 c7run) (okPart3 c7run)
    [Value.bool true, Value.bool true] (by decide) rfl rfl rfl rfl
  have b := C7_items_bifurcation.2.1 wCompilerBool {} c7objB "u#" wRootBool []
    (okPart1 c7runB) (okPart2 c7runB) (okPart3 c7runB)
    (by decide) rfl rfl rfl
    (fun xs h => Value.noConfusion (Option.some.inj h)) rfl
  have d := C7_items_bifurcation.2.2 wCompilerBool {} c7objC "u#" wRoot2020 []
    (okPart1 c7runC) (okPart2 c7runC) (okPart3 c7runC) (by decide)
    (by decide) rfl
  exact ⟨⟨a.1, a.2.1 false rfl⟩, ⟨b.1, b.2⟩,
    ⟨d.1 [Value.bool true, Value.bool true] rfl, d.2.1, d.2.2⟩⟩

/-! ### Claim C9: `if` gates `then`/`else` -/

/-- Claim C9: when `if` is absent the record's `then` and `else` fields stay
unset even if those keywords appear; when `if` is present (draft ≥ 7,
applicator vocabulary on), the record's `if` field is set and the `then`/
`else` fields are set exactly when the corresponding keywords appear. -/
theorem C9_if_gates_then_else :
    (∀ (c : Compiler) (st : Schemas) (o : List (String × Value)) (loc : String)
       (root : Root) (q : List String) (s' : Schema) (st' : Schemas)
       (q' : List String),
       jget o "if" = none →
       compileOne c st (Value.obj o) loc root q = .ok (s', st', q') →
       s'.then_ = none ∧ s'.else_ = none) ∧
    (∀ (c : Compiler) (st : Schemas) (o : List (String × Value)) (loc : String)
       (root : Root) (q : List String) (s' : Schema) (st' : Schemas)
       (q' : List String),
       7 ≤ root.draftVersion →
       root.hasVocab "applicator" = true →
       jget o "$ref" = none →
       (jget o "if").isSome = true →
       compileOne c st (Value.obj o) loc root q = .ok (s', st', q') →
       s'.if_.isSome = true ∧
       s'.then_.isSome = (jget o "then").isSome ∧
       s'.else_.isSome = (jget o "else").isSome) := by
  constructor
  · intro c st o loc root q s' st' q' hif h
    rcases compileOne_obj_decomp c st o loc root q s' st' q' h with
      ⟨_, _, _, hcc⟩ | ⟨s1, st1, q1, sA, stA, qA, sV, s6, st6, q6, s7, st7,
        q7, s9, st9, q9, hs1c, hApp, hVal, h6, h7, h19, h20⟩
    · rw [hcc]
      exact ⟨rfl, rfl⟩
    · have c20 := (lowerDraft2020_pres h20).2.1
      have c19 := (lowerDraft2019_pres h19).2.1
      have h7c := (lowerDraft7_pres h7).2.2.2.2.2.2.1 hif
      have c6 := (lowerDraft6_pres h6).2.1
      have cF := (lowerFormat_pres c root sV o).2.1
      have cV := (lowerValidation_pres hVal).1
      have cA := (lowerApplicator_pres hApp).2.1
      have hth : s'.then_ = s7.then_ := by
        have e1 : s'.then_ = s9.then_ := congrArg (fun p => p.2.1) c20
        have e2 : s9.then_ = s7.then_ := congrArg (fun p => p.2.1) c19
        rw [e1, e2]
      have hel : s'.else_ = s7.else_ := by
        have e1 : s'.else_ = s9.else_ := congrArg (fun p => p.2.2) c20
        have e2 : s9.else_ = s7.else_ := congrArg (fun p => p.2.2) c19
        rw [e1, e2]
      have hdown : s6.then_ = none ∧ s6.else_ = none := by
        have e1 : condFields s6 = condFields s1 := by rw [c6, cF, cV, cA]
        constructor
        · have e2 : s6.then_ = s1.then_ := congrArg (fun p => p.2.1) e1
          rw [e2, hs1c]
          rfl
        · have e2 : s6.else_ = s1.else_ := congrArg (fun p => p.2.2) e1
          rw [e2, hs1c]
          rfl
      exact ⟨by rw [hth, h7c.1, hdown.1], by rw [hel, h7c.2, hdown.2]⟩
  · intro c st o loc root q s' st' q' hv hva href hifsome h
    rcases compileOne_obj_decomp c st o loc root q s' st' q' h with
      ⟨_, _, ⟨r, hrstr⟩, _⟩ | ⟨s1, st1, q1, sA, stA, qA, sV, s6, st6, q6, s7,
        st7, q7, s9, st9, q9, hs1c, hApp, hVal, h6, h7, h19, h20⟩
    · rw [href] at hrstr
      cases hrstr
    · have c20 := (lowerDraft2020_pres h20).2.1
      have c19 := (lowerDraft2019_pres h19).2.1
      have h7c := (lowerDraft7_pres h7).2.2.2.2.2.2.2 hv hva hifsome
      have hif : s'.if_ = s7.if_ := by
        have e1 : s'.if_ = s9.if_ := congrArg (fun p => p.1) c20
        have e2 : s9.if_ = s7.if_ := congrArg (fun p => p.1) c19
        rw [e1, e2]
      have hth : s'.then_ = s7.then_ := by
        have e1 : s'.then_ = s9.then_ := congrArg (fun p => p.2.1) c20
        have e2 : s9.then_ = s7.then_ := congrArg (fun p => p.2.1) c19
        rw [e1, e2]
      have hel : s'.else_ = s7.else_ := by
        have e1 : s'.else_ = s9.else_ := congrArg (fun p => p.2.2) c20
        have e2 : s9.else_ = s7.else_ := congrArg (fun p => p.2.2) c19
        rw [e1, e2]
      exact ⟨by rw [hif]; exact h7c.1, by rw [hth]; exact h7c.2.1,
        by rw [hel]; exact h7c.2.2⟩

/-- The C9 gated object: `then`/`else` without `if`. -/
def c9obj : List (String × Value) :=
  [("then", Value.bool true), ("else", Value.bool true)]

/-- The C9 gated run (draft 7). -/
def c9run : Except CompileError (Schema × Schemas × List String) :=
  compileOne wCompilerBool {} (Value.obj c9obj) "u#" wRoot7 []

/-- The C9 full conditional object. -/
def c9obj2 : List (String × Value) :=
  [("if", Value.bool true), ("then", Value.bool true)]

/-- The C9 full conditional run (draft 7). -/
def c9run2 : Except CompileError (Schema × Schemas × List String) :=
  compileOne wCompilerBool {} (Value.obj c9obj2) "u#" wRoot7 []

/-- Witness for C9: under draft 7, `{"then": true, "else": true}` leaves the
`then`/`else` fields unset, while `{"if": true, "then": true}` sets `if` and
`then` but not `else`. -/
theorem C9_witness :
    ((okPart1 c9run).then_ = none ∧ (okPart1 c9run).else_ = none) ∧
    ((okPart1 c9run2).if_.isSome = true ∧
      (okPart1 c9run2).then_.isSome = (jget c9obj2 "then").isSome ∧
      (okPart1 c9run2).else_.isSome = (jget c9obj2 "else").isSome) :=
  ⟨C9_if_gates_then_else.1 wCompilerBool {} c9obj "u#" wRoot7 []
      (okPart1 c9run) (okPart2 c9run) (okPart3 c9run) rfl rfl,
   C9_if_gates_then_else.2 wCompilerBool {} c9obj2 "u#" wRoot7 []
      (okPart1 c9run2) (okPart2 c9run2) (okPart3 c9run2)
      (by decide) rfl rfl rfl rfl⟩

/-! ### Claim C10: `contains` gates `maxContains`/`minContains` -/

/-- Claim C10: under draft ≥ 2019, when `contains` is absent the record's
`max_contains` and `min_contains` fields stay unset even if the
`maxContains`/`minContains` keywords appear. -/
theorem C10_contains_gates_bounds (c : Compiler) (st : Schemas)
    (o : List (String × Value)) (loc : String) (root : Root) (q : List String)
    (s' : Schema) (st' : Schemas) (q' : List String)
    (hv : 2019 ≤ root.draftVersion)
    (hc : jget o "contains" = none)
    (h : compileOne c st (Value.obj o) loc root q = .ok (s', st', q')) :
    s'.maxContains = none ∧ s'.minContains = none := by
  rcases compileOne_obj_decomp c st o loc root q s' st' q' h with
    ⟨_, hlt, _, _⟩ | ⟨s1, st1, q1, sA, stA, qA, sV, s6, st6, q6, s7, st7,
      q7, s9, st9, q9, hs1c, hApp, hVal, h6, h7, h19, h20⟩
  · omega
  · have hs1contains : s1.contains = none := by rw [hs1c]; rfl
    have hAc := (lowerApplicator_pres hApp).2.2.2.2.1
    have hVc := (lowerValidation_pres hVal).2.2.2.2.1
    have hFc := (lowerFormat_pres c root sV o).2.2.2.2.2
    have h6c : s6.contains = none := by
      rcases (lowerDraft6_pres h6).2.2.2.2.2.2 hc with h0 | h0
      · exact h0
      · rw [h0, hFc, hVc, hAc, hs1contains]
    have h7c : s7.contains = none := by
      rw [(lowerDraft7_pres h7).2.2.2.2.1, h6c]
    have m20 := (lowerDraft2020_pres h20).2.2.2.1
    have m19 := (lowerDraft2019_pres h19).2.2.2.2.2.2 h7c
    have m7 := (lowerDraft7_pres h7).2.2.2.1
    have m6 := (lowerDraft6_pres h6).2.2.2.2.1
    have mF := (lowerFormat_pres c root sV o).2.2.2.2.1
    have mV := (lowerValidation_pres hVal).2.2.2.1
    have mA := (lowerApplicator_pres hApp).2.2.2.1
    have hmc : mcFields s' = mcFields s1 := by
      rw [m20, m19, m7, m6, mF, mV, mA]
    constructor
    · have e : s'.maxContains = s1.maxContains := congrArg (fun p => p.1) hmc
      rw [e, hs1c]
      rfl
    · have e : s'.minContains = s1.minContains := congrArg (fun p => p.2) hmc
      rw [e, hs1c]
      rfl

/-- The C10 object: containment bounds without `contains`. -/
def c10obj : List (String × Value) :=
  [("maxContains", Value.num (JNum.ofNat 3)),
   ("minContains", Value.num (JNum.ofNat 1))]

/-- The C10 run (draft 2020). -/
def c10run : Except CompileError (Schema × Schemas × List String) :=
  compileOne wCompilerBool {} (Value.obj c10obj) "u#" wRoot2020 []

/-- Witness for C10: under draft 2020, `{"maxContains": 3, "minContains": 1}`
without `contains` leaves both containment-bound fields unset. -/
theorem C10_witness :
    (okPart1 c10run).maxContains = none ∧
    (okPart1 c10run).minContains = none :=
  C10_contains_gates_bounds wCompilerBool {} c10obj "u#" wRoot2020 []
    (okPart1 c10run) (okPart2 c10run) (okPart3 c10run) (by decide) rfl rfl

/-! ### Claim C6: invalid regex errors -/

/-- If some key of the list is rejected by the regex engine, the
`patternProperties` loop fails with `InvalidRegex` naming a rejected key,
whatever the arena and queue. -/
theorem patternKeys_err (c : Compiler) (loc : String) :
    ∀ ks : List String, (∃ k, k ∈ ks ∧ c.regexOk k = false) →
      ∃ k, c.regexOk k = false ∧ ∀ (st : Schemas) (q : List String),
        patternKeys c st q loc ks =
          .error (.InvalidRegex (loc ++ "/patternProperties") k) := by
  intro ks
  induction ks with
  | nil => intro h; exact absurd h (by simp)
  | cons k rest ih =>
    intro h
    by_cases hk : c.regexOk k = true
    · have hrest : ∃ k0, k0 ∈ rest ∧ c.regexOk k0 = false := by
        rcases h with ⟨k0, hmem, hbad⟩
        rcases List.mem_cons.mp hmem with h0 | hm
        · subst h0
          rw [hk] at hbad
          exact Bool.noConfusion hbad
        · exact ⟨k0, hm, hbad⟩
      obtain ⟨k0, hbad, hall⟩ := ih hrest
      refine ⟨k0, hbad, fun st q => ?_⟩
      simp only [patternKeys, hk, if_true]
      rw [hall]
      rfl
    · have hkf : c.regexOk k = false := by
        revert hk
        cases c.regexOk k <;> simp
      exact ⟨k, hkf, fun st q => by simp [patternKeys, hkf]⟩

/-- If the object path of `compile_one` fails, so does `compile_one` itself
(the prologue only resolves the enclosing resource). -/
theorem compileOne_obj_err {c : Compiler} {st : Schemas}
    {o : List (String × Value)} {loc : String} {root : Root} {q : List String}
    {e : CompileError} {bl : String}
    (hres : root.resolveF (root.baseUrl (split loc).2) = .ok bl)
    (hobj : ∀ (s : Schema) (st1 : Schemas) (q1 : List String), s.ref_ = none →
      lowerObj c st1 s o loc root q1 = .error e) :
    compileOne c st (Value.obj o) loc root q = .error e := by
  unfold compileOne
  dsimp only
  rw [hres]
  dsimp only [ebind]
  split
  · split
    · exact hobj _ _ _ rfl
    · exact hobj _ _ _ rfl
  · exact hobj _ _ _ rfl

/-- If the applicator group always fails on this object, `lower_obj` fails the
same way (given no `$ref`, so the collapse cannot intervene). -/
theorem lowerObj_applicator_err {c : Compiler} {st : Schemas} {s : Schema}
    {o : List (String × Value)} {loc : String} {root : Root} {q : List String}
    {e : CompileError}
    (hs : s.ref_ = none) (href : jget o "$ref" = none)
    (happ : ∀ (s1 : Schema) (st1 : Schemas) (q1 : List String),
      lowerApplicator c st1 s1 o loc root q1 = .error e) :
    lowerObj c st s o loc root q = .error e := by
  unfold lowerObj
  by_cases hcore : root.hasVocab "core" = true
  · have hc : lowerCore st s o loc root q =
        .ok ({ s with ref_ := none }, st, q) := by
      unfold lowerCore
      rw [if_pos hcore]
      unfold enqueueRef
      rw [href]
      rfl
    rw [hc]
    dsimp only [ebind]
    rw [if_neg (by simp)]
    rw [happ]
  · have hcf : root.hasVocab "core" = false := by
      revert hcore
      cases root.hasVocab "core" <;> simp
    have hc : lowerCore st s o loc root q = .ok (s, st, q) := by
      unfold lowerCore
      rw [hcf]
      rfl
    rw [hc]
    dsimp only [ebind]
    rw [if_neg (by simp [hs])]
    rw [happ]

/-- If the validation group always fails on this object, `lower_obj` fails the
same way (no `$ref`, and no `patternProperties` so the applicator group
cannot fail first). -/
theorem lowerObj_validation_err {c : Compiler} {st : Schemas} {s : Schema}
    {o : List (String × Value)} {loc : String} {root : Root} {q : List String}
    {e : CompileError}
    (hs : s.ref_ = none) (href : jget o "$ref" = none)
    (hpp : jget o "patternProperties" = none)
    (hval : ∀ sA : Schema, lowerValidation c root sA o = .error e) :
    lowerObj c st s o loc root q = .error e := by
  have happ : ∀ (s1 : Schema) (st1 : Schemas) (q1 : List String),
      ∃ out, lowerApplicator c st1 s1 o loc root q1 = .ok out := by
    intro s1 st1 q1
    have hok : isOkE (lowerApplicator c st1 s1 o loc root q1) = true := by
      by_cases hva : root.hasVocab "applicator" = true
      · unfold lowerApplicator
        rw [if_pos hva]
        dsimp only
        have hpn : ppNames o = [] := by
          unfold ppNames
          rw [hpp]
        rw [hpn]
        rfl
      · have hvaf : root.hasVocab "applicator" = false := by
          revert hva
          cases root.hasVocab "applicator" <;> simp
        unfold lowerApplicator
        rw [hvaf]
        rfl
    cases hE : lowerApplicator c st1 s1 o loc root q1 with
    | ok out => exact ⟨out, rfl⟩
    | error e2 =>
      rw [hE] at hok
      exact Bool.noConfusion hok
  unfold lowerObj
  by_cases hcore : root.hasVocab "core" = true
  · have hc : lowerCore st s o loc root q =
        .ok ({ s with ref_ := none }, st, q) := by
      unfold lowerCore
      rw [if_pos hcore]
      unfold enqueueRef
      rw [href]
      rfl
    rw [hc]
    dsimp only [ebind]
    rw [if_neg (by simp)]
    obtain ⟨out, hA⟩ := happ { s with ref_ := none } st q
    rw [hA]
    dsimp only [ebind]
    rw [hval]
  · have hcf : root.hasVocab "core" = false := by
      revert hcore
      cases root.hasVocab "core" <;> simp
    have hc : lowerCore st s o loc root q = .ok (s, st, q) := by
      unfold lowerCore
      rw [hcf]
      rfl
    rw [hc]
    dsimp only [ebind]
    rw [if_neg (by simp [hs])]
    obtain ⟨out, hA⟩ := happ s st q
    rw [hA]
    dsimp only [ebind]
    rw [hval]

/-- An applicator-vocabulary object whose `patternProperties` loop fails makes
the whole applicator group fail the same way. -/
theorem lowerApplicator_pk_err {c : Compiler} {o : List (String × Value)}
    {loc : String} {root : Root} {e : CompileError}
    (hva : root.hasVocab "applicator" = true)
    (hpk : ∀ (st : Schemas) (q : List String),
      patternKeys c st q loc (ppNames o) = .error e) :
    ∀ (s : Schema) (st : Schemas) (q : List String),
      lowerApplicator c st s o loc root q = .error e := by
  intro s st q
  unfold lowerApplicator
  rw [if_pos hva]
  dsimp only
  rw [hpk]
  rfl

/-- A string `pattern` rejected by the regex engine makes the validation group
fail with a `Bug` error. -/
theorem lowerValidation_pattern_err {c : Compiler} {root : Root}
    {o : List (String × Value)} {p : String}
    (hvv : root.hasVocab "validation" = true)
    (hpat : jget o "pattern" = some (Value.str p))
    (hbad : c.regexOk p = false) :
    ∀ sA : Schema, lowerValidation c root sA o =
      .error (.Bug ("invalid regex " ++ p)) := by
  intro sA
  unfold lowerValidation
  rw [if_pos hvv]
  dsimp only
  have hlp : ∀ s : Schema, lowerLengthPattern c s o =
      .error (.Bug ("invalid regex " ++ p)) := by
    intro s
    unfold lowerLengthPattern
    dsimp only
    rw [hpat]
    dsimp only
    simp [hbad]
  rw [hlp]
  rfl

/-- Claim C6: a `patternProperties` key rejected by the regex engine makes
compilation of the object fail with `InvalidRegex` at
`<loc>/patternProperties`, while a rejected string under the `pattern` keyword
makes it fail with a `Bug` error instead. -/
theorem C6_invalid_regex :
    (∀ (c : Compiler) (st : Schemas) (o : List (String × Value)) (loc : String)
       (root : Root) (q : List String) (bl : String)
       (pp : List (String × Value)),
       root.resolveF (root.baseUrl (split loc).2) = .ok bl →
       root.hasVocab "applicator" = true →
       jget o "$ref" = none →
       jget o "patternProperties" = some (Value.obj pp) →
       (∃ k, k ∈ pp.map (fun kv => kv.1) ∧ c.regexOk k = false) →
       ∃ k, c.regexOk k = false ∧
         compileOne c st (Value.obj o) loc root q =
           .error (.InvalidRegex (loc ++ "/patternProperties") k)) ∧
    (∀ (c : Compiler) (st : Schemas) (o : List (String × Value)) (loc : String)
       (root : Root) (q : List String) (bl : String) (p : String),
       root.resolveF (root.baseUrl (split loc).2) = .ok bl →
       root.hasVocab "validation" = true →
       jget o "$ref" = none →
       jget o "patternProperties" = none →
       jget o "pattern" = some (Value.str p) →
       c.regexOk p = false →
       compileOne c st (Value.obj o) loc root q =
         .error (.Bug ("invalid regex " ++ p))) := by
  constructor
  · intro c st o loc root q bl pp hres hva href hpp hbad
    have hpn : ppNames o = pp.map (fun kv => kv.1) := by
      unfold ppNames
      rw [hpp]
    have hbad' : ∃ k, k ∈ ppNames o ∧ c.regexOk k = false := by
      rw [hpn]
      exact hbad
    obtain ⟨k, hk, hall⟩ := patternKeys_err c loc (ppNames o) hbad'
    refine ⟨k, hk, ?_⟩
    exact compileOne_obj_err hres (fun s st1 q1 hs =>
      lowerObj_applicator_err hs href (lowerApplicator_pk_err hva hall))
  · intro c st o loc root q bl p hres hvv href hpp hpat hbad
    exact compileOne_obj_err hres (fun s st1 q1 hs =>
      lowerObj_validation_err hs href hpp
        (lowerValidation_pattern_err hvv hpat hbad))

/-- A compiler whose regex engine rejects exactly the pattern `(bad`. -/
def wCompilerRx : Compiler :=
  { roots := [("u", wRootBool)], regexOk := fun p => !(p == "(bad") }

/-- The C6 `patternProperties` object with an invalid regex key. -/
def c6obj : List (String × Value) :=
  [("patternProperties", Value.obj [("(bad", Value.bool true)])]

/-- The C6 `pattern` object with an invalid regex string. -/
def c6obj2 : List (String × Value) := [("pattern", Value.str "(bad")]

/-- Witness for C6: the key `(bad` under `patternProperties` produces
`InvalidRegex` at `u#/patternProperties`, while the string `(bad` under
`pattern` produces a `Bug` error. -/
theorem C6_witness :
    (∃ k, wCompilerRx.regexOk k = false ∧
      compileOne wCompilerRx {} (Value.obj c6obj) "u#" wRootBool [] =
        .error (.InvalidRegex ("u#" ++ "/patternProperties") k)) ∧
    compileOne wCompilerRx {} (Value.obj c6obj2) "u#" wRootBool [] =
      .error (.Bug ("invalid regex " ++ "(bad")) :=
  ⟨C6_invalid_regex.1 wCompilerRx {} c6obj "u#" wRootBool [] "u#"
      [("(bad", Value.bool true)] rfl rfl rfl rfl
      ⟨"(bad", by decide, rfl⟩,
   C6_invalid_regex.2 wCompilerRx {} c6obj2 "u#" wRootBool [] "u#" "(bad"
      rfl rfl rfl rfl rfl rfl⟩

end Boon
